import Mathlib

/-!
Shallow embedding of `EclThresholdPressure` (ebos/eclthresholdpressure.hh):
the threshold-pressure computation and lookup subsystem of the OPM
black-oil simulator.  Scalars are modelled by `ℚ`; the flattened
`R × R` threshold matrices by `List ℚ`; region ids by `Nat`
(the code stores them in `unsigned char`, hence the `% 256` below);
fallible out-of-bounds accesses by `Option`; fatal initialization errors
by `Except String`.
-/

namespace EclThresholdPressure

/-- The negligible-flow tolerance `1e-18` from
`computeDefaultThresholdPressures_`. -/
def negligibleTol : ℚ := 1 / 10 ^ 18

/-- One interior face seen by the default estimator: the two adjacent element
indices, geometric area, transmissibility, and the flow-state oracle giving
per-phase upstream mobility and pressure-potential difference. -/
structure Face where
  insideElem : Nat
  outsideElem : Nat
  area : ℚ
  trans : ℚ
  upMobility : Nat → ℚ
  pressureDiff : Nat → ℚ

/-- One grid intersection seen by `applyExplicitThresholdPressures_`:
whether it is a boundary intersection, and the two adjacent element
indices. -/
structure Intersection where
  boundary : Bool
  insideElem : Nat
  outsideElem : Nat

/-- The `Opm::ThresholdPressure` configuration object, seen through the
interface the core uses: the feature flag, the restart flag, and the
per-region-pair barrier / explicit-value accessors (1-based region
numbering, as in the calls `thpres.hasRegionBarrier(r1+1, r2+1)`). -/
structure ThpresConfig where
  active : Bool
  restart : Bool
  hasRegionBarrier : Nat → Nat → Bool
  hasThresholdPressure : Nat → Nat → Bool
  getThresholdPressure : Nat → Nat → ℚ

/-- A named fault: its name and its member cartesian cell indices
(the flattened `FaultFace` sets). -/
structure Fault where
  name : String
  faces : List (List Nat)

/-- One record of the `THPRESFT` deck keyword: a fault name and a
threshold value. -/
structure ThpresftRecord where
  faultName : String
  value : ℚ

/-- The mutable state of the `EclThresholdPressure` object. -/
structure ThpresState where
  enableThresholdPressure : Bool
  numEquilRegions : Nat
  elemEquilRegion : List Nat
  thpres : List ℚ
  thpresDefault : List ℚ
  thpresftValues : List ℚ
  cartElemFaultIdx : List Int

/-- The freshly constructed state: the constructor only clears the enable
flag. -/
def initialState : ThpresState :=
  { enableThresholdPressure := false
    numEquilRegions := 0
    elemEquilRegion := []
    thpres := []
    thpresDefault := []
    thpresftValues := []
    cartElemFaultIdx := [] }

/-- `setFromRestart`: replaces `thpres_` wholesale with externally supplied
values. -/
def setFromRestart (s : ThpresState) (values : List ℚ) : ThpresState :=
  { s with thpres := values }

/-- `data()`: read-only access to `thpres_`. -/
def data (s : ThpresState) : List ℚ :=
  s.thpres

/-- The region-based part of `thresholdPressure` (lines 195-201): look up
both cells' equilibration regions; equal regions give 0, different regions
read `thpres_[r1*R + r2]`.  `none` models an out-of-bounds access. -/
def regionThreshold (s : ThpresState) (elem1Idx elem2Idx : Nat) : Option ℚ :=
  match s.elemEquilRegion.get? elem1Idx, s.elemEquilRegion.get? elem2Idx with
  | some r1, some r2 =>
      if r1 = r2 then some 0
      else s.thpres.get? (r1 * s.numEquilRegions + r2)
  | _, _ => none

/-- The query `thresholdPressure(elem1Idx, elem2Idx)` (lines 163-202).
`enableExperiments` is the compile-time feature flag, `cartesianIndex` the
vanguard's local-to-cartesian map.  `none` models a failed assertion or an
out-of-bounds vector access. -/
def thresholdPressure (enableExperiments : Bool) (cartesianIndex : Nat → Nat)
    (s : ThpresState) (elem1Idx elem2Idx : Nat) : Option ℚ :=
  if s.enableThresholdPressure = false then some 0
  else if enableExperiments ∧ s.thpresftValues ≠ [] then
    match s.cartElemFaultIdx.get? (cartesianIndex elem1Idx),
          s.cartElemFaultIdx.get? (cartesianIndex elem2Idx) with
    | some fault1Idx, some fault2Idx =>
        if fault1Idx ≠ -1 ∧ fault1Idx = fault2Idx then some 0
        else if fault1Idx ≠ fault2Idx then
          match (if 0 ≤ fault1Idx then s.thpresftValues.get? fault1Idx.toNat
                 else some 0),
                (if 0 ≤ fault2Idx then s.thpresftValues.get? fault2Idx.toNat
                 else some 0) with
          | some val1, some val2 => some (max val1 val2)
          | _, _ => none
        else regionThreshold s elem1Idx elem2Idx
    | _, _ => none
  else regionThreshold s elem1Idx elem2Idx

/-- The per-face candidate threshold of `computeDefaultThresholdPressures_`
(lines 255-265): starting from `pth = 0`, for each phase whose upstream
mobility is positive take the maximum with the absolute pressure-potential
difference. -/
def faceCandidate (numPhases : Nat) (f : Face) : ℚ :=
  (List.range numPhases).foldl
    (fun pth phaseIdx =>
      if 0 < f.upMobility phaseIdx then max pth |f.pressureDiff phaseIdx|
      else pth)
    0

/-- The body of the face loop of `computeDefaultThresholdPressures_`
(lines 231-272) for a single interior face: skip same-region faces and
negligible-flow faces, otherwise update both symmetric `thpresDefault_`
entries with the maximum of the existing entry and the face candidate. -/
def processFace (numPhases R : Nat) (region : List Nat) (M : List ℚ)
    (f : Face) : List ℚ :=
  let equilRegionInside := region.getD f.insideElem 0
  let equilRegionOutside := region.getD f.outsideElem 0
  if equilRegionInside = equilRegionOutside then M
  else if |f.area * f.trans| < negligibleTol then M
  else
    let pth := faceCandidate numPhases f
    let offset1 := equilRegionInside * R + equilRegionOutside
    let offset2 := equilRegionOutside * R + equilRegionInside
    let M1 := M.set offset1 (max (M.getD offset1 0) pth)
    M1.set offset2 (max (M1.getD offset2 0) pth)

/-- The partition-local part of `computeDefaultThresholdPressures_`: the
full scan over this partition's interior faces, starting from the
zero-initialized `R*R` matrix allocated in `finishInit`. -/
def computeDefaultLocal (numPhases R : Nat) (region : List Nat)
    (faces : List Face) : List ℚ :=
  faces.foldl (processFace numPhases R region) (List.replicate (R * R) 0)

/-- The collective element-wise maximum reduction `gridView.comm().max`
(lines 277-278), seen from one partition: combine the local matrix with
every peer's matrix entry by entry. -/
def commMax (local_ : List ℚ) (peers : List (List ℚ)) : List ℚ :=
  peers.foldl (fun acc m => List.zipWith max acc m) local_

/-- `computeDefaultThresholdPressures_` as run by one partition whose peers
contribute the locally accumulated matrices `peers`. -/
def computeDefaultThresholdPressures (numPhases R : Nat) (region : List Nat)
    (faces : List Face) (peers : List (List ℚ)) : List ℚ :=
  commMax (computeDefaultLocal numPhases R region faces) peers

/-- The body of the intersection loop of `applyExplicitThresholdPressures_`
(lines 304-338): skip boundary intersections; where the two regions carry a
declared barrier, write the explicit value (if configured) or the
`thpresDefault_` entry into both symmetric `thpres_` entries. -/
def applyStep (R : Nat) (region : List Nat) (cfg : ThpresConfig)
    (thpresDefault : List ℚ) (M : List ℚ) (is : Intersection) : List ℚ :=
  if is.boundary then M
  else
    let equilRegionInside := region.getD is.insideElem 0
    let equilRegionOutside := region.getD is.outsideElem 0
    if cfg.hasRegionBarrier (equilRegionInside + 1) (equilRegionOutside + 1) then
      let pth :=
        if cfg.hasThresholdPressure (equilRegionInside + 1) (equilRegionOutside + 1) then
          cfg.getThresholdPressure (equilRegionInside + 1) (equilRegionOutside + 1)
        else
          thpresDefault.getD (equilRegionInside * R + equilRegionOutside) 0
      let M1 := M.set (equilRegionInside * R + equilRegionOutside) pth
      M1.set (equilRegionOutside * R + equilRegionInside) pth
    else M

/-- The intersection scan of `applyExplicitThresholdPressures_`
(lines 295-339), starting from the zero-initialized `thpres_`. -/
def applyExplicitScan (R : Nat) (region : List Nat) (cfg : ThpresConfig)
    (thpresDefault : List ℚ) (isects : List Intersection) (M0 : List ℚ) :
    List ℚ :=
  isects.foldl (applyStep R region cfg thpresDefault) M0

/-- The cell-assignment loop of `extractThpresft_` (lines 372-376): every
member cell of the fault is pointed at the fault's index. -/
def assignFaultCells (faultIdx : Nat) (fault : Fault) (c : List Int) :
    List Int :=
  fault.faces.foldl
    (fun c face =>
      face.foldl
        (fun c cartElemIdx => c.set cartElemIdx (Int.ofNat faultIdx)) c)
    c

/-- The inner match-and-assign of `extractThpresft_` (lines 366-377) for
one `THPRESFT` record: every fault whose name matches the record gets the
record's value, and all its member cells are pointed at that fault. -/
def processThpresftRecord (faults : List Fault)
    (vc : List ℚ × List Int) (r : ThpresftRecord) : List ℚ × List Int :=
  faults.enum.foldl
    (fun vc fi =>
      if fi.2.name ≠ r.faultName then vc
      else (vc.1.set fi.1 r.value, assignFaultCells fi.1 fi.2 vc.2))
    vc

/-- `extractThpresft_` (lines 349-379): initialize `thpresftValues_` to the
`-1` sentinel and `cartElemFaultIdx_` to `-1`, then process every record of
the `THPRESFT` keyword. -/
def extractThpresft (faults : List Fault) (numCartesianElem : Nat)
    (records : List ThpresftRecord) : List ℚ × List Int :=
  records.foldl (processThpresftRecord faults)
    (List.replicate faults.length (-1 : ℚ),
     List.replicate numCartesianElem (-1 : Int))

/-- Everything `finishInit` reads from its collaborators: grid topology and
cartesian mapping, the `EQLNUM` region attribute and `EQLDIMS` region
count, the `THPRES` configuration, faults and the `THPRESFT` deck keyword,
and the peer partitions' contributions to the collective maximum
reduction. -/
structure SimulatorInput where
  numElements : Nat
  cartesianIndex : Nat → Nat
  faces : List Face
  intersections : List Intersection
  numEquilRegions : Nat
  eqlnum : List Int
  faults : List Fault
  numCartesianElem : Nat
  thpresCfg : ThpresConfig
  hasTHPRESFT : Bool
  thpresftRecords : List ThpresftRecord
  peerDefaults : List (List ℚ)

/-- The internalization of the `EQLNUM` keyword (lines 129-137): per local
element, look up the cartesian cell's 1-based region id and store it
0-based.  The target array has element type `unsigned char`, hence the
truncation modulo 256. -/
def internalizeEqlnum (inp : SimulatorInput) : List Nat :=
  (List.range inp.numElements).map
    (fun elemIdx =>
      (((inp.eqlnum.getD (inp.cartesianIndex elemIdx) 0) - 1) % 256).toNat)

/-- `finishInit` (lines 101-153): read the enable flag; enforce the
255-region limit; internalize `EQLNUM`; stop early on restart runs;
otherwise allocate the zeroed matrices, run the default estimator and the
explicit-override applier (which also extracts `THPRESFT` when the
experimental flag and keyword are present). -/
def finishInit (enableExperiments : Bool) (numPhases : Nat)
    (inp : SimulatorInput) (s0 : ThpresState) : Except String ThpresState :=
  if inp.thpresCfg.active = false then
    Except.ok { s0 with enableThresholdPressure := false }
  else if 255 < inp.numEquilRegions then
    Except.error "The maximum number of supported equilibration regions is 255!"
  else
    let elemEquilRegion := internalizeEqlnum inp
    if inp.thpresCfg.restart then
      Except.ok { s0 with
                  enableThresholdPressure := true
                  numEquilRegions := inp.numEquilRegions
                  elemEquilRegion := elemEquilRegion }
    else
      let R := inp.numEquilRegions
      let thpresDefault :=
        computeDefaultThresholdPressures numPhases R elemEquilRegion
          inp.faces inp.peerDefaults
      let thpres :=
        applyExplicitScan R elemEquilRegion inp.thpresCfg thpresDefault
          inp.intersections (List.replicate (R * R) 0)
      let vc :=
        if enableExperiments ∧ inp.hasTHPRESFT then
          extractThpresft inp.faults inp.numCartesianElem inp.thpresftRecords
        else (s0.thpresftValues, s0.cartElemFaultIdx)
      Except.ok
        { enableThresholdPressure := true
          numEquilRegions := R
          elemEquilRegion := elemEquilRegion
          thpres := thpres
          thpresDefault := thpresDefault
          thpresftValues := vc.1
          cartElemFaultIdx := vc.2 }

/-- The whole distributed run of `computeDefaultThresholdPressures_`:
every partition scans its own interior faces and then participates in the
collective maximum reduction, folding the other partitions' locally
accumulated matrices into its own.  Entry `i` of the result is partition
`i`'s post-reduction matrix. -/
def parallelComputeDefault (numPhases R : Nat) (region : List Nat)
    (partitionFaces : List (List Face)) : List (List ℚ) :=
  let locals := partitionFaces.map (computeDefaultLocal numPhases R region)
  locals.enum.map (fun pi => commMax pi.2 (locals.eraseIdx pi.1))

/-! ### Helper lemmas -/

/-- Flattened-matrix offsets determine the region pair: with both column
indices below `R`, equal offsets force equal pairs. -/
theorem pair_offset_inj {R a b c d : Nat} (hb : b < R) (hd : d < R)
    (h : a * R + b = c * R + d) : a = c ∧ b = d := by
  have hbd : b = d := by
    have h1 : (a * R + b) % R = (c * R + d) % R := by rw [h]
    rwa [Nat.add_comm (a * R) b, Nat.add_comm (c * R) d,
      Nat.add_mul_mod_self_right, Nat.add_mul_mod_self_right,
      Nat.mod_eq_of_lt hb, Nat.mod_eq_of_lt hd] at h1
  refine ⟨?_, hbd⟩
  subst hbd
  have hR : 0 < R := Nat.lt_of_le_of_lt (Nat.zero_le b) hb
  have h2 : a * R = c * R := by omega
  exact Nat.eq_of_mul_eq_mul_right hR h2

theorem getD_set_self {l : List ℚ} {i : Nat} {x : ℚ} (h : i < l.length) :
    (l.set i x).getD i 0 = x := by
  rw [List.getD_eq_getElem?_getD, List.getElem?_set_eq_of_lt x h]
  rfl

theorem getD_set_ne {l : List ℚ} {i j : Nat} {x : ℚ} (h : i ≠ j) :
    (l.set i x).getD j 0 = l.getD j 0 := by
  rw [List.getD_eq_getElem?_getD, List.getD_eq_getElem?_getD,
    List.getElem?_set_ne h]

/-! ### Claim C9 -/

/-- C9: during initialization with the threshold-pressure feature enabled,
a region count above 255 makes `finishInit` fail immediately with the fatal
configuration error, while a region count of exactly 255 is accepted. -/
theorem claim_C9_region_limit (enableExperiments : Bool) (numPhases : Nat)
    (inp : SimulatorInput) (s0 : ThpresState)
    (hact : inp.thpresCfg.active = true) :
    (255 < inp.numEquilRegions →
      finishInit enableExperiments numPhases inp s0 =
        Except.error
          "The maximum number of supported equilibration regions is 255!") ∧
    (inp.numEquilRegions = 255 →
      ∃ s, finishInit enableExperiments numPhases inp s0 = Except.ok s) := by
  constructor
  · intro h
    simp [finishInit, hact, h]
  · intro h
    have h' : ¬ 255 < inp.numEquilRegions := by omega
    by_cases hres : inp.thpresCfg.restart
    · exact ⟨_, by simp [finishInit, hact, h', hres]; rfl⟩
    · exact ⟨_, by simp [finishInit, hact, h', hres]; rfl⟩

/-- Witness for C9 at a concrete input: a 256-region configuration is
rejected and a 255-region one accepted. -/
theorem claim_C9_region_limit_witness :
    (let inp : SimulatorInput :=
      { numElements := 0, cartesianIndex := id, faces := [],
        intersections := [], numEquilRegions := 256, eqlnum := [],
        faults := [], numCartesianElem := 0,
        thpresCfg :=
          { active := true, restart := false,
            hasRegionBarrier := fun _ _ => false,
            hasThresholdPressure := fun _ _ => false,
            getThresholdPressure := fun _ _ => 0 },
        hasTHPRESFT := false, thpresftRecords := [], peerDefaults := [] };
     finishInit false 3 inp initialState =
       Except.error
         "The maximum number of supported equilibration regions is 255!") ∧
    (let inp : SimulatorInput :=
      { numElements := 0, cartesianIndex := id, faces := [],
        intersections := [], numEquilRegions := 255, eqlnum := [],
        faults := [], numCartesianElem := 0,
        thpresCfg :=
          { active := true, restart := false,
            hasRegionBarrier := fun _ _ => false,
            hasThresholdPressure := fun _ _ => false,
            getThresholdPressure := fun _ _ => 0 },
        hasTHPRESFT := false, thpresftRecords := [], peerDefaults := [] };
     ∃ s, finishInit false 3 inp initialState = Except.ok s) := by
  constructor
  · exact (claim_C9_region_limit false 3 _ initialState rfl).1 (by decide)
  · exact (claim_C9_region_limit false 3 _ initialState rfl).2 rfl

/-! ### Claim C5 -/

/-- C5: on a restart run, `finishInit` leaves the matrices untouched (the
estimation and override scans are skipped), the resulting state does not
depend on the face data, the intersections, or the peer contributions, and
after `setFromRestart M` the stored final matrix is exactly `M`. -/
theorem claim_C5_restart_bypass (enableExperiments : Bool) (numPhases : Nat)
    (inp : SimulatorInput) (F : List Face) (I : List Intersection)
    (P : List (List ℚ)) (s0 : ThpresState) (M : List ℚ)
    (hact : inp.thpresCfg.active = true)
    (hres : inp.thpresCfg.restart = true)
    (hR : inp.numEquilRegions ≤ 255) :
    ∃ s, finishInit enableExperiments numPhases inp s0 = Except.ok s ∧
      finishInit enableExperiments numPhases
        { inp with faces := F, intersections := I, peerDefaults := P } s0 =
        Except.ok s ∧
      s = { s0 with
            enableThresholdPressure := true
            numEquilRegions := inp.numEquilRegions
            elemEquilRegion := internalizeEqlnum inp } ∧
      data (setFromRestart s M) = M := by
  have h' : ¬ 255 < inp.numEquilRegions := by omega
  refine ⟨_, by simp [finishInit, hact, h', hres], ?_, rfl, rfl⟩
  simp [finishInit, hact, h', hres, internalizeEqlnum]

/-- Witness for C5 at a concrete input: one cell, one region, a restart
configuration, and an injected matrix `[7]`. -/
theorem claim_C5_restart_bypass_witness :
    (let inp : SimulatorInput :=
      { numElements := 1, cartesianIndex := id, faces := [],
        intersections := [], numEquilRegions := 1, eqlnum := [1],
        faults := [], numCartesianElem := 1,
        thpresCfg :=
          { active := true, restart := true,
            hasRegionBarrier := fun _ _ => false,
            hasThresholdPressure := fun _ _ => false,
            getThresholdPressure := fun _ _ => 0 },
        hasTHPRESFT := false, thpresftRecords := [], peerDefaults := [] };
     ∃ s, finishInit false 3 inp initialState = Except.ok s ∧
       finishInit false 3
         { inp with
           faces := [{ insideElem := 0, outsideElem := 0, area := 1,
                       trans := 1, upMobility := fun _ => 1,
                       pressureDiff := fun _ => 5 }],
           intersections := [], peerDefaults := [] } initialState =
         Except.ok s ∧
       s = { initialState with
             enableThresholdPressure := true
             numEquilRegions := 1
             elemEquilRegion := internalizeEqlnum inp } ∧
       data (setFromRestart s [(7 : ℚ)]) = [(7 : ℚ)]) := by
  exact claim_C5_restart_bypass false 3 _ _ _ _ initialState [(7 : ℚ)]
    rfl rfl (by decide)

/-! ### Claim C3 -/

/-- The value a cell contributes to the fault-crossing rule as the spec
words it: a cell outside any fault, or one whose fault's value is still the
unset (negative) sentinel, contributes 0; otherwise the fault's value. -/
def specFaultValue (s : ThpresState) (faultIdx : Int) : ℚ :=
  if 0 ≤ faultIdx then
    let v := s.thpresftValues.getD faultIdx.toNat 0
    if 0 ≤ v then v else 0
  else 0

/-- C3: with the fault extension enabled and populated, the query resolves
fault-first: same valid fault index gives 0 (whatever the regions),
different fault indices give the maximum of the two cells' fault values
(no-fault and unset treated as 0), and two no-fault cells fall through to
region-based resolution.  The hypothesis `hwf` states that a valid fault
index reached through `cartElemFaultIdx_` carries a set (non-negative)
value, which is what `extractThpresft_` produces for non-negative record
values. -/
theorem claim_C3_fault_resolution (cart : Nat → Nat) (s : ThpresState)
    (e1 e2 : Nat) (f1 f2 : Int)
    (hen : s.enableThresholdPressure = true)
    (hft : s.thpresftValues ≠ [])
    (h1 : s.cartElemFaultIdx.get? (cart e1) = some f1)
    (h2 : s.cartElemFaultIdx.get? (cart e2) = some f2)
    (hwf : ∀ f : Int, (f = f1 ∨ f = f2) → 0 ≤ f →
      ∃ v, s.thpresftValues.get? f.toNat = some v ∧ 0 ≤ v) :
    (f1 ≠ -1 ∧ f1 = f2 →
      thresholdPressure true cart s e1 e2 = some 0) ∧
    (f1 ≠ f2 →
      thresholdPressure true cart s e1 e2 =
        some (max (specFaultValue s f1) (specFaultValue s f2))) ∧
    (f1 = -1 ∧ f2 = -1 →
      thresholdPressure true cart s e1 e2 = regionThreshold s e1 e2) := by
  rw [List.get?_eq_getElem?] at h1 h2
  refine ⟨?_, ?_, ?_⟩
  · intro hsame
    obtain ⟨hs1, hs2⟩ := hsame
    subst hs2
    simp [thresholdPressure, hen, hft, h1, h2, hs1]
  · intro hne
    have hval : ∀ f : Int, (f = f1 ∨ f = f2) →
        (if 0 ≤ f then s.thpresftValues[f.toNat]? else some 0) =
          some (specFaultValue s f) := by
      intro f hf
      by_cases hpos : 0 ≤ f
      · obtain ⟨v, hv, hv0⟩ := hwf f hf hpos
        rw [List.get?_eq_getElem?] at hv
        simp [hpos, hv, specFaultValue, List.getD_eq_getElem?_getD, hv0]
      · simp [hpos, specFaultValue]
    have hv1 := hval f1 (Or.inl rfl)
    have hv2 := hval f2 (Or.inr rfl)
    simp [thresholdPressure, hen, hft, h1, h2, hne, hv1, hv2]
  · intro hnone
    obtain ⟨hn1, hn2⟩ := hnone
    subst hn1; subst hn2
    simp [thresholdPressure, hen, hft, h1, h2]

/-- A concrete post-initialization state with two one-cell faults carrying
the values 3 and 7. -/
def faultDemoState : ThpresState :=
  { enableThresholdPressure := true
    numEquilRegions := 2
    elemEquilRegion := [0, 1]
    thpres := [0, 1, 1, 0]
    thpresDefault := [0, 0, 0, 0]
    thpresftValues := [3, 7]
    cartElemFaultIdx := [0, 1] }

/-- Witness for C3 at a concrete input: two cells in different faults with
values 3 and 7 give threshold 7. -/
theorem claim_C3_fault_resolution_witness :
    thresholdPressure true id faultDemoState 0 1 = some 7 := by
  refine ((claim_C3_fault_resolution id faultDemoState 0 1 0 1 rfl
    (by decide) rfl rfl ?_).2.1 (by decide)).trans (by decide)
  intro f hf hpos
  rcases hf with h | h
  · subst h; exact ⟨3, rfl, by decide⟩
  · subst h; exact ⟨7, rfl, by decide⟩

/-! ### Claim C2 -/

/-- The face's candidate threshold as the spec words it: the maximum,
over the fluid phases with strictly positive upstream mobility, of the
absolute pressure-potential difference (0 when no phase qualifies). -/
def specFaceCandidate (numPhases : Nat) (f : Face) : ℚ :=
  (((List.range numPhases).filter
      (fun phaseIdx => decide (0 < f.upMobility phaseIdx))).map
    (fun phaseIdx => |f.pressureDiff phaseIdx|)).foldl max 0

theorem foldl_if_max_eq_filter_map (mob : Nat → ℚ) (pd : Nat → ℚ) :
    ∀ (l : List Nat) (a : ℚ),
      l.foldl (fun pth p => if 0 < mob p then max pth |pd p| else pth) a =
        ((l.filter (fun p => decide (0 < mob p))).map
          (fun p => |pd p|)).foldl max a := by
  intro l
  induction l with
  | nil => intro a; rfl
  | cons hd tl ih =>
    intro a
    by_cases hp : 0 < mob hd
    · simp [List.foldl_cons, hp, List.filter_cons, ih]
    · simp [List.foldl_cons, hp, List.filter_cons, ih]

/-- The per-phase accumulation of `computeDefaultThresholdPressures_` is
the spec's filtered maximum. -/
theorem faceCandidate_eq_spec (numPhases : Nat) (f : Face) :
    faceCandidate numPhases f = specFaceCandidate numPhases f := by
  unfold faceCandidate specFaceCandidate
  exact foldl_if_max_eq_filter_map f.upMobility f.pressureDiff
    (List.range numPhases) 0

/-- Offsets into the flattened `R × R` matrix stay in bounds. -/
theorem offset_lt {R a b : Nat} (ha : a < R) (hb : b < R) :
    a * R + b < R * R := by
  calc a * R + b < a * R + R := by omega
  _ = (a + 1) * R := by ring
  _ ≤ R * R := Nat.mul_le_mul_right R ha

/-- C2: for a face between two different regions, the default estimator
skips the face when `|area * transmissibility| < 1e-18`; otherwise it
updates both symmetric `thpresDefault_` entries of the region pair to the
maximum of the existing entry and the face candidate, the candidate being
the maximum absolute pressure-potential difference over the phases with
strictly positive upstream mobility. -/
theorem claim_C2_default_estimator (numPhases R : Nat) (region : List Nat)
    (M : List ℚ) (f : Face) (r1 r2 : Nat)
    (hr1 : region.getD f.insideElem 0 = r1)
    (hr2 : region.getD f.outsideElem 0 = r2)
    (hne : r1 ≠ r2) (hb1 : r1 < R) (hb2 : r2 < R)
    (hlen : M.length = R * R) :
    (|f.area * f.trans| < negligibleTol →
      processFace numPhases R region M f = M) ∧
    (¬ |f.area * f.trans| < negligibleTol →
      (processFace numPhases R region M f).getD (r1 * R + r2) 0 =
        max (M.getD (r1 * R + r2) 0) (specFaceCandidate numPhases f) ∧
      (processFace numPhases R region M f).getD (r2 * R + r1) 0 =
        max (M.getD (r2 * R + r1) 0) (specFaceCandidate numPhases f)) := by
  have ho12 : r1 * R + r2 ≠ r2 * R + r1 := by
    intro h
    exact hne (pair_offset_inj hb2 hb1 h).1
  have hlt1 : r1 * R + r2 < M.length := by rw [hlen]; exact offset_lt hb1 hb2
  have hlt2 : r2 * R + r1 < M.length := by rw [hlen]; exact offset_lt hb2 hb1
  constructor
  · intro hskip
    unfold processFace
    rw [hr1, hr2, if_neg hne, if_pos hskip]
  · intro hflow
    unfold processFace
    rw [hr1, hr2, if_neg hne, if_neg hflow, faceCandidate_eq_spec]
    constructor
    · rw [getD_set_ne (Ne.symm ho12), getD_set_self hlt1]
    · rw [getD_set_self (by rw [List.length_set]; exact hlt2),
        getD_set_ne ho12]

/-- The concrete face of the spec's test scenario: `area * trans = 1e-3`,
one phase with mobility `0.8` and pressure difference `2.5e5`, the other
phases immobile. -/
def demoFace : Face :=
  { insideElem := 0
    outsideElem := 1
    area := 1
    trans := 1 / 1000
    upMobility := fun phaseIdx => if phaseIdx = 0 then 4 / 5 else 0
    pressureDiff := fun phaseIdx => if phaseIdx = 0 then 250000 else 0 }

/-- Witness for C2 at the spec's concrete scenario: both symmetric entries
become `2.5e5`. -/
theorem claim_C2_default_estimator_witness :
    (processFace 3 2 [0, 1] [0, 0, 0, 0] demoFace).getD 1 0 = 250000 ∧
    (processFace 3 2 [0, 1] [0, 0, 0, 0] demoFace).getD 2 0 = 250000 := by
  have hcand : specFaceCandidate 3 demoFace = 250000 := by
    norm_num [specFaceCandidate, demoFace, List.range_succ]
  have habs : |demoFace.area * demoFace.trans| = 1 / 1000 := by
    rw [show demoFace.area * demoFace.trans = 1 / 1000 by norm_num [demoFace]]
    exact abs_of_pos (by norm_num)
  have h := (claim_C2_default_estimator 3 2 [0, 1] [0, 0, 0, 0] demoFace 0 1
    rfl rfl (by decide) (by decide) (by decide) (by decide)).2
    (by rw [habs, negligibleTol]; norm_num)
  rw [hcand] at h
  exact ⟨h.1.trans (by norm_num), h.2.trans (by norm_num)⟩

/-! ### Claim C1 -/

/-- The threshold the override applier installs for a barrier pair: the
explicitly configured value when one is supplied, otherwise the
`thpresDefault_` entry of the pair (the `pth` of lines 321-330). -/
def barrierValue (R : Nat) (cfg : ThpresConfig) (thpresDefault : List ℚ)
    (r1 r2 : Nat) : ℚ :=
  if cfg.hasThresholdPressure (r1 + 1) (r2 + 1) then
    cfg.getThresholdPressure (r1 + 1) (r2 + 1)
  else thpresDefault.getD (r1 * R + r2) 0

/-- Under a symmetric configuration and a symmetric default matrix the
installed value does not depend on the orientation of the pair. -/
theorem barrierValue_symm {R : Nat} {cfg : ThpresConfig} {dflt : List ℚ}
    {r1 r2 : Nat}
    (hhassym : ∀ a b, cfg.hasThresholdPressure a b =
      cfg.hasThresholdPressure b a)
    (hgetsym : ∀ a b, cfg.getThresholdPressure a b =
      cfg.getThresholdPressure b a)
    (hdfltsym : dflt.getD (r1 * R + r2) 0 = dflt.getD (r2 * R + r1) 0) :
    barrierValue R cfg dflt r2 r1 = barrierValue R cfg dflt r1 r2 := by
  unfold barrierValue
  rw [hhassym (r2 + 1) (r1 + 1), hgetsym (r2 + 1) (r1 + 1), hdfltsym]

theorem applyStep_length (R : Nat) (region : List Nat) (cfg : ThpresConfig)
    (dflt : List ℚ) (M : List ℚ) (is : Intersection) :
    (applyStep R region cfg dflt M is).length = M.length := by
  unfold applyStep
  split
  · rfl
  · dsimp only
    split
    · simp
    · rfl

/-- One step of the override scan never disturbs a barrier pair whose two
symmetric entries already hold the pair's installed value. -/
theorem applyStep_preserves_pair {R : Nat} {region : List Nat}
    {cfg : ThpresConfig} {dflt : List ℚ} {r1 r2 : Nat}
    (hreg : ∀ e, region.getD e 0 < R)
    (hhassym : ∀ a b, cfg.hasThresholdPressure a b =
      cfg.hasThresholdPressure b a)
    (hgetsym : ∀ a b, cfg.getThresholdPressure a b =
      cfg.getThresholdPressure b a)
    (hdfltsym : ∀ a b, a < R → b < R →
      dflt.getD (a * R + b) 0 = dflt.getD (b * R + a) 0)
    (hne : r1 ≠ r2) (hb1 : r1 < R) (hb2 : r2 < R)
    (M : List ℚ) (is : Intersection) (hlen : M.length = R * R)
    (h1 : M.getD (r1 * R + r2) 0 = barrierValue R cfg dflt r1 r2)
    (h2 : M.getD (r2 * R + r1) 0 = barrierValue R cfg dflt r1 r2) :
    (applyStep R region cfg dflt M is).getD (r1 * R + r2) 0 =
      barrierValue R cfg dflt r1 r2 ∧
    (applyStep R region cfg dflt M is).getD (r2 * R + r1) 0 =
      barrierValue R cfg dflt r1 r2 := by
  unfold applyStep
  split
  · exact ⟨h1, h2⟩
  · dsimp only
    set a := region.getD is.insideElem 0 with hadef
    set b := region.getD is.outsideElem 0 with hbdef
    have ha : a < R := hreg is.insideElem
    have hb : b < R := hreg is.outsideElem
    split
    · set v := (if cfg.hasThresholdPressure (a + 1) (b + 1) then
        cfg.getThresholdPressure (a + 1) (b + 1)
        else dflt.getD (a * R + b) 0) with hvdef
      have hv : v = barrierValue R cfg dflt a b := rfl
      have hlt1 : r1 * R + r2 < M.length := by
        rw [hlen]; exact offset_lt hb1 hb2
      have hlt2 : r2 * R + r1 < M.length := by
        rw [hlen]; exact offset_lt hb2 hb1
      have ho12 : r1 * R + r2 ≠ r2 * R + r1 := fun h =>
        hne (pair_offset_inj hb2 hb1 h).1
      by_cases hab1 : a = r1 ∧ b = r2
      · obtain ⟨e1, e2⟩ := hab1
        subst e1; subst e2
        constructor
        · rw [getD_set_ne (Ne.symm ho12), getD_set_self hlt1, hv]
        · rw [getD_set_self (by rw [List.length_set]; exact hlt2), hv]
      · by_cases hab2 : a = r2 ∧ b = r1
        · obtain ⟨e1, e2⟩ := hab2
          subst e1; subst e2
          have hvv : v = barrierValue R cfg dflt b a :=
            hv.trans (barrierValue_symm hhassym hgetsym
              (hdfltsym b a hb1 hb2))
          constructor
          · rw [getD_set_self (by rw [List.length_set]; exact hlt1), hvv]
          · rw [getD_set_ne ho12, getD_set_self hlt2, hvv]
        · have hne1 : a * R + b ≠ r1 * R + r2 := fun h => by
            obtain ⟨x, y⟩ := pair_offset_inj hb hb2 h
            exact hab1 ⟨x, y⟩
          have hne2 : a * R + b ≠ r2 * R + r1 := fun h => by
            obtain ⟨x, y⟩ := pair_offset_inj hb hb1 h
            exact hab2 ⟨x, y⟩
          have hne3 : b * R + a ≠ r1 * R + r2 := fun h => by
            obtain ⟨x, y⟩ := pair_offset_inj ha hb2 h
            exact hab2 ⟨y, x⟩
          have hne4 : b * R + a ≠ r2 * R + r1 := fun h => by
            obtain ⟨x, y⟩ := pair_offset_inj ha hb1 h
            exact hab1 ⟨y, x⟩
          constructor
          · rw [getD_set_ne hne3, getD_set_ne hne1]; exact h1
          · rw [getD_set_ne hne4, getD_set_ne hne2]; exact h2
    · exact ⟨h1, h2⟩

/-- The override scan never disturbs a barrier pair whose two symmetric
entries already hold the pair's installed value. -/
theorem applyExplicitScan_preserves_pair {R : Nat} {region : List Nat}
    {cfg : ThpresConfig} {dflt : List ℚ} {r1 r2 : Nat}
    (hreg : ∀ e, region.getD e 0 < R)
    (hhassym : ∀ a b, cfg.hasThresholdPressure a b =
      cfg.hasThresholdPressure b a)
    (hgetsym : ∀ a b, cfg.getThresholdPressure a b =
      cfg.getThresholdPressure b a)
    (hdfltsym : ∀ a b, a < R → b < R →
      dflt.getD (a * R + b) 0 = dflt.getD (b * R + a) 0)
    (hne : r1 ≠ r2) (hb1 : r1 < R) (hb2 : r2 < R) :
    ∀ (isects : List Intersection) (M : List ℚ), M.length = R * R →
      M.getD (r1 * R + r2) 0 = barrierValue R cfg dflt r1 r2 →
      M.getD (r2 * R + r1) 0 = barrierValue R cfg dflt r1 r2 →
      (applyExplicitScan R region cfg dflt isects M).getD (r1 * R + r2) 0 =
        barrierValue R cfg dflt r1 r2 ∧
      (applyExplicitScan R region cfg dflt isects M).getD (r2 * R + r1) 0 =
        barrierValue R cfg dflt r1 r2 := by
  intro isects
  induction isects with
  | nil => intro M _ h1 h2; exact ⟨h1, h2⟩
  | cons x xs ih =>
    intro M hlen h1 h2
    have hstep := applyStep_preserves_pair hreg hhassym hgetsym hdfltsym
      hne hb1 hb2 M x hlen h1 h2
    have hlen' : (applyStep R region cfg dflt M x).length = R * R := by
      rw [applyStep_length]; exact hlen
    exact ih (applyStep R region cfg dflt M x) hlen' hstep.1 hstep.2

/-- Visiting a non-boundary intersection of a barrier pair writes the
pair's installed value into both symmetric entries. -/
theorem applyStep_writes_pair (R : Nat) (region : List Nat)
    (cfg : ThpresConfig) (dflt : List ℚ) {r1 r2 : Nat}
    (hne : r1 ≠ r2) (hb1 : r1 < R) (hb2 : r2 < R)
    (M : List ℚ) (is : Intersection) (hlen : M.length = R * R)
    (hbd : is.boundary = false)
    (hr1 : region.getD is.insideElem 0 = r1)
    (hr2 : region.getD is.outsideElem 0 = r2)
    (hbar : cfg.hasRegionBarrier (r1 + 1) (r2 + 1) = true) :
    (applyStep R region cfg dflt M is).getD (r1 * R + r2) 0 =
      barrierValue R cfg dflt r1 r2 ∧
    (applyStep R region cfg dflt M is).getD (r2 * R + r1) 0 =
      barrierValue R cfg dflt r1 r2 := by
  have hlt1 : r1 * R + r2 < M.length := by rw [hlen]; exact offset_lt hb1 hb2
  have hlt2 : r2 * R + r1 < M.length := by rw [hlen]; exact offset_lt hb2 hb1
  have ho12 : r1 * R + r2 ≠ r2 * R + r1 := fun h =>
    hne (pair_offset_inj hb2 hb1 h).1
  unfold applyStep
  rw [hbd]
  simp only [Bool.false_eq_true, if_false, hr1, hr2, hbar, if_true]
  constructor
  · rw [getD_set_ne (Ne.symm ho12), getD_set_self hlt1]; rfl
  · rw [getD_set_self (by rw [List.length_set]; exact hlt2)]; rfl

/-- C1: for every non-boundary intersection whose two cells' regions carry
a declared barrier, the override scan leaves both symmetric `thpres_`
entries of the pair equal to the installed value — the explicitly
configured threshold when one is supplied, otherwise the `thpresDefault_`
entry of the pair. -/
theorem claim_C1_explicit_override (R : Nat) (region : List Nat)
    (cfg : ThpresConfig) (dflt : List ℚ) (isects : List Intersection)
    (M0 : List ℚ) (is : Intersection) (r1 r2 : Nat)
    (hreg : ∀ e, region.getD e 0 < R)
    (hhassym : ∀ a b, cfg.hasThresholdPressure a b =
      cfg.hasThresholdPressure b a)
    (hgetsym : ∀ a b, cfg.getThresholdPressure a b =
      cfg.getThresholdPressure b a)
    (hdfltsym : ∀ a b, a < R → b < R →
      dflt.getD (a * R + b) 0 = dflt.getD (b * R + a) 0)
    (hlen : M0.length = R * R)
    (hmem : is ∈ isects) (hbd : is.boundary = false)
    (hr1 : region.getD is.insideElem 0 = r1)
    (hr2 : region.getD is.outsideElem 0 = r2)
    (hne : r1 ≠ r2)
    (hbar : cfg.hasRegionBarrier (r1 + 1) (r2 + 1) = true) :
    (applyExplicitScan R region cfg dflt isects M0).getD (r1 * R + r2) 0 =
      barrierValue R cfg dflt r1 r2 ∧
    (applyExplicitScan R region cfg dflt isects M0).getD (r2 * R + r1) 0 =
      barrierValue R cfg dflt r1 r2 ∧
    (cfg.hasThresholdPressure (r1 + 1) (r2 + 1) = true →
      barrierValue R cfg dflt r1 r2 =
        cfg.getThresholdPressure (r1 + 1) (r2 + 1)) ∧
    (cfg.hasThresholdPressure (r1 + 1) (r2 + 1) = false →
      barrierValue R cfg dflt r1 r2 = dflt.getD (r1 * R + r2) 0) := by
  have hb1 : r1 < R := hr1 ▸ hreg is.insideElem
  have hb2 : r2 < R := hr2 ▸ hreg is.outsideElem
  have main : (applyExplicitScan R region cfg dflt isects M0).getD
      (r1 * R + r2) 0 = barrierValue R cfg dflt r1 r2 ∧
      (applyExplicitScan R region cfg dflt isects M0).getD
      (r2 * R + r1) 0 = barrierValue R cfg dflt r1 r2 := by
    induction isects generalizing M0 with
    | nil => cases hmem
    | cons x xs ih =>
      have hlen' : (applyStep R region cfg dflt M0 x).length = R * R := by
        rw [applyStep_length]; exact hlen
      rcases List.mem_cons.mp hmem with hx | hxs
      · subst hx
        have hw := applyStep_writes_pair R region cfg dflt hne hb1 hb2 M0
          is hlen hbd hr1 hr2 hbar
        exact applyExplicitScan_preserves_pair hreg hhassym hgetsym
          hdfltsym hne hb1 hb2 xs _ hlen' hw.1 hw.2
      · exact ih _ hlen' hxs
  refine ⟨main.1, main.2, ?_, ?_⟩
  · intro h; simp [barrierValue, h]
  · intro h; simp [barrierValue, h]

/-- Witness for C1 at a concrete input: two cells in regions 0 and 1, a
barrier with explicit value 42 while the default entry is 5; the final
entries are 42. -/
theorem claim_C1_explicit_override_witness :
    (applyExplicitScan 2 [0, 1]
      { active := true, restart := false,
        hasRegionBarrier := fun a b => decide (a + b = 3),
        hasThresholdPressure := fun a b => decide (a + b = 3),
        getThresholdPressure := fun _ _ => 42 }
      [0, 5, 5, 0]
      [{ boundary := false, insideElem := 0, outsideElem := 1 }]
      [0, 0, 0, 0]).getD 1 0 = 42 ∧
    (applyExplicitScan 2 [0, 1]
      { active := true, restart := false,
        hasRegionBarrier := fun a b => decide (a + b = 3),
        hasThresholdPressure := fun a b => decide (a + b = 3),
        getThresholdPressure := fun _ _ => 42 }
      [0, 5, 5, 0]
      [{ boundary := false, insideElem := 0, outsideElem := 1 }]
      [0, 0, 0, 0]).getD 2 0 = 42 := by
  have h := claim_C1_explicit_override 2 [0, 1]
    { active := true, restart := false,
      hasRegionBarrier := fun a b => decide (a + b = 3),
      hasThresholdPressure := fun a b => decide (a + b = 3),
      getThresholdPressure := fun _ _ => 42 }
    [0, 5, 5, 0]
    [{ boundary := false, insideElem := 0, outsideElem := 1 }]
    [0, 0, 0, 0]
    { boundary := false, insideElem := 0, outsideElem := 1 } 0 1
    (by
      intro e
      cases e with
      | zero => decide
      | succ e1 =>
        cases e1 with
        | zero => decide
        | succ e2 => exact (show (0 : ℕ) < 2 by decide))
    (by intro a b; simp [Nat.add_comm])
    (by intro a b; rfl)
    (by
      intro a b ha hb
      interval_cases a <;> interval_cases b <;> decide)
    rfl (List.mem_singleton.mpr rfl) rfl rfl rfl (by decide) rfl
  refine ⟨h.1.trans ?_, h.2.1.trans ?_⟩ <;>
    · rw [h.2.2.1 rfl]

/-! ### Claims C10 and C7: pairs never visited stay untouched -/

/-- A step of the override scan does not move the two entries of a pair no
non-boundary intersection of which it visits. -/
theorem applyStep_untouched (R : Nat) (region : List Nat)
    (cfg : ThpresConfig) (dflt : List ℚ) {r1 r2 : Nat}
    (hreg : ∀ e, region.getD e 0 < R)
    (hne : r1 ≠ r2) (hb1 : r1 < R) (hb2 : r2 < R)
    (M : List ℚ) (is : Intersection)
    (hnotpair : is.boundary = false →
      ¬((region.getD is.insideElem 0 = r1 ∧
         region.getD is.outsideElem 0 = r2) ∨
        (region.getD is.insideElem 0 = r2 ∧
         region.getD is.outsideElem 0 = r1))) :
    (applyStep R region cfg dflt M is).getD (r1 * R + r2) 0 =
      M.getD (r1 * R + r2) 0 ∧
    (applyStep R region cfg dflt M is).getD (r2 * R + r1) 0 =
      M.getD (r2 * R + r1) 0 := by
  unfold applyStep
  split
  · exact ⟨rfl, rfl⟩
  · rename_i hbd
    have hnp := hnotpair (Bool.not_eq_true _ ▸ hbd)
    dsimp only
    set a := region.getD is.insideElem 0 with hadef
    set b := region.getD is.outsideElem 0 with hbdef
    have ha : a < R := hreg is.insideElem
    have hb : b < R := hreg is.outsideElem
    split
    · have hne1 : a * R + b ≠ r1 * R + r2 := fun h => by
        obtain ⟨x, y⟩ := pair_offset_inj hb hb2 h
        exact hnp (Or.inl ⟨x, y⟩)
      have hne2 : a * R + b ≠ r2 * R + r1 := fun h => by
        obtain ⟨x, y⟩ := pair_offset_inj hb hb1 h
        exact hnp (Or.inr ⟨x, y⟩)
      have hne3 : b * R + a ≠ r1 * R + r2 := fun h => by
        obtain ⟨x, y⟩ := pair_offset_inj ha hb2 h
        exact hnp (Or.inr ⟨y, x⟩)
      have hne4 : b * R + a ≠ r2 * R + r1 := fun h => by
        obtain ⟨x, y⟩ := pair_offset_inj ha hb1 h
        exact hnp (Or.inl ⟨y, x⟩)
      constructor
      · rw [getD_set_ne hne3, getD_set_ne hne1]
      · rw [getD_set_ne hne4, getD_set_ne hne2]
    · exact ⟨rfl, rfl⟩

/-- The override scan does not move the two entries of a pair none of whose
intersections it visits. -/
theorem applyExplicitScan_untouched (R : Nat) (region : List Nat)
    (cfg : ThpresConfig) (dflt : List ℚ) {r1 r2 : Nat}
    (hreg : ∀ e, region.getD e 0 < R)
    (hne : r1 ≠ r2) (hb1 : r1 < R) (hb2 : r2 < R) :
    ∀ (isects : List Intersection) (M : List ℚ),
      (∀ is ∈ isects, is.boundary = false →
        ¬((region.getD is.insideElem 0 = r1 ∧
           region.getD is.outsideElem 0 = r2) ∨
          (region.getD is.insideElem 0 = r2 ∧
           region.getD is.outsideElem 0 = r1))) →
      (applyExplicitScan R region cfg dflt isects M).getD (r1 * R + r2) 0 =
        M.getD (r1 * R + r2) 0 ∧
      (applyExplicitScan R region cfg dflt isects M).getD (r2 * R + r1) 0 =
        M.getD (r2 * R + r1) 0 := by
  intro isects
  induction isects with
  | nil => intro M _; exact ⟨rfl, rfl⟩
  | cons x xs ih =>
    intro M hall
    have hstep := applyStep_untouched R region cfg dflt hreg hne hb1 hb2 M x
      (hall x (List.mem_cons_self x xs))
    have hrest := ih (applyStep R region cfg dflt M x)
      (fun is his => hall is (List.mem_cons_of_mem x his))
    exact ⟨hrest.1.trans hstep.1, hrest.2.trans hstep.2⟩

theorem processFace_length (numPhases R : Nat) (region : List Nat)
    (M : List ℚ) (f : Face) :
    (processFace numPhases R region M f).length = M.length := by
  unfold processFace
  dsimp only
  split
  · rfl
  · split
    · rfl
    · simp

/-- A step of the default estimator does not move the two entries of a pair
that its face does not connect. -/
theorem processFace_untouched (numPhases : Nat) {R : Nat}
    {region : List Nat} {r1 r2 : Nat}
    (hreg : ∀ e, region.getD e 0 < R)
    (hne : r1 ≠ r2) (hb1 : r1 < R) (hb2 : r2 < R)
    (M : List ℚ) (f : Face)
    (hnotpair :
      ¬((region.getD f.insideElem 0 = r1 ∧
         region.getD f.outsideElem 0 = r2) ∨
        (region.getD f.insideElem 0 = r2 ∧
         region.getD f.outsideElem 0 = r1))) :
    (processFace numPhases R region M f).getD (r1 * R + r2) 0 =
      M.getD (r1 * R + r2) 0 ∧
    (processFace numPhases R region M f).getD (r2 * R + r1) 0 =
      M.getD (r2 * R + r1) 0 := by
  unfold processFace
  dsimp only
  set a := region.getD f.insideElem 0 with hadef
  set b := region.getD f.outsideElem 0 with hbdef
  have ha : a < R := hreg f.insideElem
  have hb : b < R := hreg f.outsideElem
  split
  · exact ⟨rfl, rfl⟩
  · split
    · exact ⟨rfl, rfl⟩
    · have hne1 : a * R + b ≠ r1 * R + r2 := fun h => by
        obtain ⟨x, y⟩ := pair_offset_inj hb hb2 h
        exact hnotpair (Or.inl ⟨x, y⟩)
      have hne2 : a * R + b ≠ r2 * R + r1 := fun h => by
        obtain ⟨x, y⟩ := pair_offset_inj hb hb1 h
        exact hnotpair (Or.inr ⟨x, y⟩)
      have hne3 : b * R + a ≠ r1 * R + r2 := fun h => by
        obtain ⟨x, y⟩ := pair_offset_inj ha hb2 h
        exact hnotpair (Or.inr ⟨y, x⟩)
      have hne4 : b * R + a ≠ r2 * R + r1 := fun h => by
        obtain ⟨x, y⟩ := pair_offset_inj ha hb1 h
        exact hnotpair (Or.inl ⟨y, x⟩)
      constructor
      · rw [getD_set_ne hne3, getD_set_ne hne1]
      · rw [getD_set_ne hne4, getD_set_ne hne2]

/-- The local face scan leaves the two entries of a pair none of whose
faces it visits at zero. -/
theorem computeDefaultLocal_untouched (numPhases : Nat) {R : Nat}
    {region : List Nat} {r1 r2 : Nat}
    (hreg : ∀ e, region.getD e 0 < R)
    (hne : r1 ≠ r2) (hb1 : r1 < R) (hb2 : r2 < R) (faces : List Face)
    (hfaces : ∀ f ∈ faces,
      ¬((region.getD f.insideElem 0 = r1 ∧
         region.getD f.outsideElem 0 = r2) ∨
        (region.getD f.insideElem 0 = r2 ∧
         region.getD f.outsideElem 0 = r1))) :
    (computeDefaultLocal numPhases R region faces).getD (r1 * R + r2) 0 = 0 ∧
    (computeDefaultLocal numPhases R region faces).getD (r2 * R + r1) 0 =
      0 := by
  have hzero : ∀ j, (List.replicate (R * R) (0 : ℚ)).getD j 0 = 0 := by
    intro j
    rw [List.getD_eq_getElem?_getD, List.getElem?_replicate]
    split <;> rfl
  have main : ∀ (fs : List Face) (M : List ℚ),
      (∀ f ∈ fs,
        ¬((region.getD f.insideElem 0 = r1 ∧
           region.getD f.outsideElem 0 = r2) ∨
          (region.getD f.insideElem 0 = r2 ∧
           region.getD f.outsideElem 0 = r1))) →
      (fs.foldl (processFace numPhases R region) M).getD (r1 * R + r2) 0 =
        M.getD (r1 * R + r2) 0 ∧
      (fs.foldl (processFace numPhases R region) M).getD (r2 * R + r1) 0 =
        M.getD (r2 * R + r1) 0 := by
    intro fs
    induction fs with
    | nil => intro M _; exact ⟨rfl, rfl⟩
    | cons x xs ih =>
      intro M hall
      have hstep := processFace_untouched numPhases hreg hne hb1 hb2 M x
        (hall x (List.mem_cons_self x xs))
      have hrest := ih (processFace numPhases R region M x)
        (fun f hf => hall f (List.mem_cons_of_mem x hf))
      exact ⟨hrest.1.trans hstep.1, hrest.2.trans hstep.2⟩
  have h := main faces (List.replicate (R * R) 0) hfaces
  exact ⟨h.1.trans (hzero _), h.2.trans (hzero _)⟩

theorem computeDefaultLocal_length (numPhases R : Nat) (region : List Nat)
    (faces : List Face) :
    (computeDefaultLocal numPhases R region faces).length = R * R := by
  unfold computeDefaultLocal
  have main : ∀ (fs : List Face) (M : List ℚ),
      (fs.foldl (processFace numPhases R region) M).length = M.length := by
    intro fs
    induction fs with
    | nil => intro M; rfl
    | cons x xs ih =>
      intro M
      rw [List.foldl_cons, ih, processFace_length]
  rw [main, List.length_replicate]

theorem zipWith_max_getD {l m : List ℚ} {L j : Nat} (hl : l.length = L)
    (hm : m.length = L) (hj : j < L) :
    (List.zipWith max l m).getD j 0 = max (l.getD j 0) (m.getD j 0) := by
  have h1 : l[j]? = some (l.getD j 0) := by
    rw [List.getElem?_eq_getElem (by omega), List.getD_eq_getElem?_getD,
      List.getElem?_eq_getElem (by omega)]
    rfl
  have h2 : m[j]? = some (m.getD j 0) := by
    rw [List.getElem?_eq_getElem (by omega), List.getD_eq_getElem?_getD,
      List.getElem?_eq_getElem (by omega)]
    rfl
  rw [List.getD_eq_getElem?_getD, List.getElem?_zipWith, h1, h2]
  rfl

theorem commMax_length {L : Nat} :
    ∀ (peers : List (List ℚ)) (l : List ℚ), l.length = L →
      (∀ m ∈ peers, m.length = L) → (commMax l peers).length = L := by
  intro peers
  induction peers with
  | nil => intro l hl _; exact hl
  | cons m ms ih =>
    intro l hl hall
    have hz : (List.zipWith max l m).length = L := by
      rw [List.length_zipWith, hl, hall m (List.mem_cons_self m ms),
        Nat.min_self]
    exact ih _ hz (fun m' hm' => hall m' (List.mem_cons_of_mem m hm'))

/-- One entry of the collective maximum reduction is the running maximum of
that entry over the participants. -/
theorem commMax_getD {L j : Nat} (hj : j < L) :
    ∀ (peers : List (List ℚ)) (l : List ℚ), l.length = L →
      (∀ m ∈ peers, m.length = L) →
      (commMax l peers).getD j 0 =
        peers.foldl (fun a m => max a (m.getD j 0)) (l.getD j 0) := by
  intro peers
  induction peers with
  | nil => intro l _ _; rfl
  | cons m ms ih =>
    intro l hl hall
    have hm : m.length = L := hall m (List.mem_cons_self m ms)
    have hz : (List.zipWith max l m).length = L := by
      rw [List.length_zipWith, hl, hm, Nat.min_self]
    have hstep := ih (List.zipWith max l m) hz
      (fun m' hm' => hall m' (List.mem_cons_of_mem m hm'))
    calc (commMax l (m :: ms)).getD j 0
        = (commMax (List.zipWith max l m) ms).getD j 0 := rfl
      _ = ms.foldl (fun a m' => max a (m'.getD j 0))
            ((List.zipWith max l m).getD j 0) := hstep
      _ = ms.foldl (fun a m' => max a (m'.getD j 0))
            (max (l.getD j 0) (m.getD j 0)) := by
          rw [zipWith_max_getD hl hm hj]

theorem foldl_max_zeros (j : Nat) :
    ∀ peers : List (List ℚ), (∀ m ∈ peers, m.getD j 0 = 0) →
      peers.foldl (fun a m => max a (m.getD j 0)) 0 = 0 := by
  intro peers
  induction peers with
  | nil => intro _; rfl
  | cons m ms ih =>
    intro hall
    rw [List.foldl_cons, hall m (List.mem_cons_self m ms), max_self]
    exact ih (fun m' hm' => hall m' (List.mem_cons_of_mem m hm'))

theorem replicate_getD_zero (n j : Nat) :
    (List.replicate n (0 : ℚ)).getD j 0 = 0 := by
  rw [List.getD_eq_getElem?_getD, List.getElem?_replicate]
  split <;> rfl

/-- C10: a barrier declared for a region pair with no intersection in the
grid has no effect: both final-matrix entries of the pair stay zero even
when an explicit threshold value is configured for the pair, because the
override applier only writes while visiting intersections of the pair. -/
theorem claim_C10_barrier_without_face (R : Nat) (region : List Nat)
    (cfg : ThpresConfig) (dflt : List ℚ) (isects : List Intersection)
    (r1 r2 : Nat)
    (hreg : ∀ e, region.getD e 0 < R)
    (hne : r1 ≠ r2) (hb1 : r1 < R) (hb2 : r2 < R)
    (hbar : cfg.hasRegionBarrier (r1 + 1) (r2 + 1) = true)
    (hval : cfg.hasThresholdPressure (r1 + 1) (r2 + 1) = true)
    (hnoisect : ∀ is ∈ isects, is.boundary = false →
      ¬((region.getD is.insideElem 0 = r1 ∧
         region.getD is.outsideElem 0 = r2) ∨
        (region.getD is.insideElem 0 = r2 ∧
         region.getD is.outsideElem 0 = r1))) :
    (applyExplicitScan R region cfg dflt isects
      (List.replicate (R * R) 0)).getD (r1 * R + r2) 0 = 0 ∧
    (applyExplicitScan R region cfg dflt isects
      (List.replicate (R * R) 0)).getD (r2 * R + r1) 0 = 0 := by
  have h := applyExplicitScan_untouched R region cfg dflt hreg hne hb1 hb2
    isects (List.replicate (R * R) 0) hnoisect
  exact ⟨h.1.trans (replicate_getD_zero _ _),
    h.2.trans (replicate_getD_zero _ _)⟩

/-- Witness for C10 at a concrete input: a barrier with explicit value 99
between regions 0 and 1, but no intersection in the grid; both final
entries stay 0. -/
theorem claim_C10_barrier_without_face_witness :
    (applyExplicitScan 2 [0, 1]
      { active := true, restart := false,
        hasRegionBarrier := fun _ _ => true,
        hasThresholdPressure := fun _ _ => true,
        getThresholdPressure := fun _ _ => 99 }
      [0, 5, 5, 0] [] (List.replicate 4 0)).getD 1 0 = 0 ∧
    (applyExplicitScan 2 [0, 1]
      { active := true, restart := false,
        hasRegionBarrier := fun _ _ => true,
        hasThresholdPressure := fun _ _ => true,
        getThresholdPressure := fun _ _ => 99 }
      [0, 5, 5, 0] [] (List.replicate 4 0)).getD 2 0 = 0 :=
  claim_C10_barrier_without_face 2 [0, 1]
    { active := true, restart := false,
      hasRegionBarrier := fun _ _ => true,
      hasThresholdPressure := fun _ _ => true,
      getThresholdPressure := fun _ _ => 99 }
    [0, 5, 5, 0] [] 0 1
    (by
      intro e
      cases e with
      | zero => decide
      | succ e1 =>
        cases e1 with
        | zero => decide
        | succ e2 => exact (show (0 : ℕ) < 2 by decide))
    (by decide) (by decide) (by decide) rfl rfl
    (by intro is his; cases his)

/-- C7: a region pair with no declared barrier and no connecting face is
left by the override applier at the default matrix's entry for the pair,
and that entry is zero because the estimator never touched the pair. -/
theorem claim_C7_untouched_pair (numPhases R : Nat) (region : List Nat)
    (cfg : ThpresConfig) (faces : List Face) (isects : List Intersection)
    (peers : List (List ℚ)) (r1 r2 : Nat)
    (hreg : ∀ e, region.getD e 0 < R)
    (hne : r1 ≠ r2) (hb1 : r1 < R) (hb2 : r2 < R)
    (hnobar : cfg.hasRegionBarrier (r1 + 1) (r2 + 1) = false ∧
      cfg.hasRegionBarrier (r2 + 1) (r1 + 1) = false)
    (hnoface : ∀ f ∈ faces,
      ¬((region.getD f.insideElem 0 = r1 ∧
         region.getD f.outsideElem 0 = r2) ∨
        (region.getD f.insideElem 0 = r2 ∧
         region.getD f.outsideElem 0 = r1)))
    (hnoisect : ∀ is ∈ isects, is.boundary = false →
      ¬((region.getD is.insideElem 0 = r1 ∧
         region.getD is.outsideElem 0 = r2) ∨
        (region.getD is.insideElem 0 = r2 ∧
         region.getD is.outsideElem 0 = r1)))
    (hpeers : ∀ m ∈ peers, m.length = R * R ∧
      m.getD (r1 * R + r2) 0 = 0 ∧ m.getD (r2 * R + r1) 0 = 0) :
    ((applyExplicitScan R region cfg
        (computeDefaultThresholdPressures numPhases R region faces peers)
        isects (List.replicate (R * R) 0)).getD (r1 * R + r2) 0 =
      (computeDefaultThresholdPressures numPhases R region faces
        peers).getD (r1 * R + r2) 0 ∧
      (computeDefaultThresholdPressures numPhases R region faces
        peers).getD (r1 * R + r2) 0 = 0) ∧
    ((applyExplicitScan R region cfg
        (computeDefaultThresholdPressures numPhases R region faces peers)
        isects (List.replicate (R * R) 0)).getD (r2 * R + r1) 0 =
      (computeDefaultThresholdPressures numPhases R region faces
        peers).getD (r2 * R + r1) 0 ∧
      (computeDefaultThresholdPressures numPhases R region faces
        peers).getD (r2 * R + r1) 0 = 0) := by
  have hloc := computeDefaultLocal_untouched numPhases hreg hne hb1 hb2
    faces hnoface
  have hdflt1 : (computeDefaultThresholdPressures numPhases R region faces
      peers).getD (r1 * R + r2) 0 = 0 := by
    unfold computeDefaultThresholdPressures
    rw [commMax_getD (offset_lt hb1 hb2) peers _
      (computeDefaultLocal_length numPhases R region faces)
      (fun m hm => (hpeers m hm).1), hloc.1]
    exact foldl_max_zeros _ peers (fun m hm => (hpeers m hm).2.1)
  have hdflt2 : (computeDefaultThresholdPressures numPhases R region faces
      peers).getD (r2 * R + r1) 0 = 0 := by
    unfold computeDefaultThresholdPressures
    rw [commMax_getD (offset_lt hb2 hb1) peers _
      (computeDefaultLocal_length numPhases R region faces)
      (fun m hm => (hpeers m hm).1), hloc.2]
    exact foldl_max_zeros _ peers (fun m hm => (hpeers m hm).2.2)
  have hfin := applyExplicitScan_untouched R region cfg
    (computeDefaultThresholdPressures numPhases R region faces peers)
    hreg hne hb1 hb2 isects (List.replicate (R * R) 0) hnoisect
  constructor
  · exact ⟨(hfin.1.trans (replicate_getD_zero _ _)).trans hdflt1.symm, hdflt1⟩
  · exact ⟨(hfin.2.trans (replicate_getD_zero _ _)).trans hdflt2.symm, hdflt2⟩

/-- Witness for C7 at a concrete input: two regions, no barrier, no face;
both final entries equal the default entries, which are zero. -/
theorem claim_C7_untouched_pair_witness :
    ((applyExplicitScan 2 [0, 1]
        { active := true, restart := false,
          hasRegionBarrier := fun _ _ => false,
          hasThresholdPressure := fun _ _ => false,
          getThresholdPressure := fun _ _ => 0 }
        (computeDefaultThresholdPressures 3 2 [0, 1] [] [])
        [] (List.replicate 4 0)).getD 1 0 =
      (computeDefaultThresholdPressures 3 2 [0, 1] [] []).getD 1 0 ∧
      (computeDefaultThresholdPressures 3 2 [0, 1] [] []).getD 1 0 = 0) ∧
    ((applyExplicitScan 2 [0, 1]
        { active := true, restart := false,
          hasRegionBarrier := fun _ _ => false,
          hasThresholdPressure := fun _ _ => false,
          getThresholdPressure := fun _ _ => 0 }
        (computeDefaultThresholdPressures 3 2 [0, 1] [] [])
        [] (List.replicate 4 0)).getD 2 0 =
      (computeDefaultThresholdPressures 3 2 [0, 1] [] []).getD 2 0 ∧
      (computeDefaultThresholdPressures 3 2 [0, 1] [] []).getD 2 0 = 0) :=
  claim_C7_untouched_pair 3 2 [0, 1]
    { active := true, restart := false,
      hasRegionBarrier := fun _ _ => false,
      hasThresholdPressure := fun _ _ => false,
      getThresholdPressure := fun _ _ => 0 }
    [] [] [] 0 1
    (by
      intro e
      cases e with
      | zero => decide
      | succ e1 =>
        cases e1 with
        | zero => decide
        | succ e2 => exact (show (0 : ℕ) < 2 by decide))
    (by decide) (by decide) (by decide) ⟨rfl, rfl⟩
    (by intro f hf; cases hf)
    (by intro is his; cases his)
    (by intro m hm; cases hm)

/-! ### Claim C6 -/

theorem getElem?_eq_some_getD {α : Type} {l : List α} {d : α} {n : Nat}
    (h : n < l.length) : l[n]? = some (l.getD n d) := by
  rw [List.getElem?_eq_getElem h, List.getD_eq_getElem?_getD,
    List.getElem?_eq_getElem h]
  rfl

theorem perm_cons_eraseIdx {α : Type} :
    ∀ (l : List α) (i : Nat) (x : α), l.get? i = some x →
      l.Perm (x :: l.eraseIdx i) := by
  intro l
  induction l with
  | nil => intro i x h; cases h
  | cons a t ih =>
    intro i x h
    cases i with
    | zero =>
      injection h with h
      subst h
      exact List.Perm.refl _
    | succ i' =>
      have ht := ih i' x h
      exact List.Perm.trans (ht.cons a) (List.Perm.swap x a (t.eraseIdx i'))

theorem foldl_max_le_start (j : Nat) :
    ∀ (ms : List (List ℚ)) (a : ℚ),
      a ≤ ms.foldl (fun b m => max b (m.getD j 0)) a := by
  intro ms
  induction ms with
  | nil => intro a; exact le_refl a
  | cons x xs ih =>
    intro a
    exact le_trans (le_max_left a (x.getD j 0)) (ih _)

theorem foldl_max_le_mem (j : Nat) :
    ∀ (ms : List (List ℚ)) (a : ℚ) (m : List ℚ), m ∈ ms →
      m.getD j 0 ≤ ms.foldl (fun b m' => max b (m'.getD j 0)) a := by
  intro ms
  induction ms with
  | nil => intro a m hm; cases hm
  | cons x xs ih =>
    intro a m hm
    rcases List.mem_cons.mp hm with he | hmem
    · subst he
      exact le_trans (le_max_right a (m.getD j 0)) (foldl_max_le_start j xs _)
    · exact ih _ m hmem

theorem foldl_max_mem (j : Nat) :
    ∀ (ms : List (List ℚ)) (a : ℚ),
      ms.foldl (fun b m => max b (m.getD j 0)) a = a ∨
      ∃ m ∈ ms, ms.foldl (fun b m' => max b (m'.getD j 0)) a =
        m.getD j 0 := by
  intro ms
  induction ms with
  | nil => intro a; exact Or.inl rfl
  | cons x xs ih =>
    intro a
    rcases ih (max a (x.getD j 0)) with h | ⟨m, hm, h⟩
    · rcases max_choice a (x.getD j 0) with hc | hc
      · exact Or.inl (by rw [List.foldl_cons, h, hc])
      · exact Or.inr ⟨x, List.mem_cons_self x xs, by
          rw [List.foldl_cons, h, hc]⟩
    · exact Or.inr ⟨m, List.mem_cons_of_mem x hm, by
        rw [List.foldl_cons, h]⟩

/-- The post-reduction matrix of one partition has the right size and each
of its entries is the maximum, over all partitions, of that partition's
locally accumulated entry. -/
theorem parallel_entry_spec (numPhases R : Nat) (region : List Nat)
    (partitionFaces : List (List Face)) (p : Nat) (mp : List ℚ)
    (hp : (parallelComputeDefault numPhases R region partitionFaces).get? p =
      some mp) :
    mp.length = R * R ∧
    ∀ j, j < R * R →
      ((∃ fs ∈ partitionFaces,
          (computeDefaultLocal numPhases R region fs).getD j 0 =
            mp.getD j 0) ∧
       ∀ fs ∈ partitionFaces,
          (computeDefaultLocal numPhases R region fs).getD j 0 ≤
            mp.getD j 0) := by
  set locals := partitionFaces.map (computeDefaultLocal numPhases R region)
    with hlocdef
  have hlen : ∀ m ∈ locals, m.length = R * R := by
    intro m hm
    obtain ⟨fs, _, hfs⟩ := List.mem_map.mp hm
    rw [← hfs]
    exact computeDefaultLocal_length numPhases R region fs
  have hp' : Option.map
      ((fun lp => commMax lp (locals.eraseIdx p)) ∘
        computeDefaultLocal numPhases R region)
      partitionFaces[p]? = some mp := by
    rw [List.get?_eq_getElem?] at hp
    simp only [parallelComputeDefault, List.getElem?_map,
      List.getElem?_enum, Option.map_map] at hp
    exact hp
  cases hl : partitionFaces[p]? with
  | none => rw [hl] at hp'; cases hp'
  | some fsp =>
    rw [hl] at hp'
    injection hp' with hp'
    set lp := computeDefaultLocal numPhases R region fsp with hlpdef
    have hfspmem : fsp ∈ partitionFaces := List.getElem?_mem hl
    have hlp : lp ∈ locals := List.mem_map_of_mem _ hfspmem
    have hlget : locals[p]? = some lp := by
      rw [hlocdef, List.getElem?_map, hl]
      rfl
    have hlplen : lp.length = R * R := hlen lp hlp
    have herlen : ∀ m ∈ locals.eraseIdx p, m.length = R * R :=
      fun m hm => hlen m ((List.eraseIdx_sublist locals p).mem hm)
    have hperm : locals.Perm (lp :: locals.eraseIdx p) :=
      perm_cons_eraseIdx locals p lp (by rw [List.get?_eq_getElem?, hlget])
    have hmplen : mp.length = R * R := by
      rw [← hp']
      exact commMax_length (locals.eraseIdx p) lp hlplen herlen
    refine ⟨hmplen, ?_⟩
    intro j hj
    have hentry : mp.getD j 0 = (locals.eraseIdx p).foldl
        (fun a m => max a (m.getD j 0)) (lp.getD j 0) := by
      rw [← hp']
      exact commMax_getD hj (locals.eraseIdx p) lp hlplen herlen
    constructor
    · rcases foldl_max_mem j (locals.eraseIdx p) (lp.getD j 0) with h | ⟨m, hm, h⟩
      · obtain ⟨fs, hfs, hfseq⟩ := List.mem_map.mp hlp
        exact ⟨fs, hfs, by rw [hfseq, hentry, h]⟩
      · have hmem : m ∈ locals := (List.eraseIdx_sublist locals p).mem hm
        obtain ⟨fs, hfs, hfseq⟩ := List.mem_map.mp hmem
        exact ⟨fs, hfs, by rw [hfseq, hentry, h]⟩
    · intro fs hfs
      have hmem : computeDefaultLocal numPhases R region fs ∈ locals :=
        List.mem_map_of_mem _ hfs
      rcases List.mem_cons.mp ((hperm.mem_iff).mp hmem) with he | hmem'
      · rw [he, hentry]
        exact foldl_max_le_start j _ _
      · rw [hentry]
        exact foldl_max_le_mem j _ _ _ hmem'

/-- C6: after the face scan and the collective maximum reduction, every
partition holds the same matrix, and each entry is the element-wise
maximum over all partitions of that partition's locally accumulated
entry (it is attained by some partition and bounds every partition). -/
theorem claim_C6_distributed_reduction (numPhases R : Nat)
    (region : List Nat) (partitionFaces : List (List Face)) (p q : Nat)
    (mp mq : List ℚ)
    (hp : (parallelComputeDefault numPhases R region partitionFaces).get? p =
      some mp)
    (hq : (parallelComputeDefault numPhases R region partitionFaces).get? q =
      some mq) :
    mp = mq ∧
    ∀ j, j < R * R →
      ((∃ fs ∈ partitionFaces,
          (computeDefaultLocal numPhases R region fs).getD j 0 =
            mp.getD j 0) ∧
       ∀ fs ∈ partitionFaces,
          (computeDefaultLocal numPhases R region fs).getD j 0 ≤
            mp.getD j 0) := by
  have Hp := parallel_entry_spec numPhases R region partitionFaces p mp hp
  have Hq := parallel_entry_spec numPhases R region partitionFaces q mq hq
  have hentry : ∀ j, j < R * R → mp.getD j 0 = mq.getD j 0 := by
    intro j hj
    obtain ⟨⟨fsp, hfsp, hfspe⟩, hubp⟩ := Hp.2 j hj
    obtain ⟨⟨fsq, hfsq, hfsqe⟩, hubq⟩ := Hq.2 j hj
    have h1 : mp.getD j 0 ≤ mq.getD j 0 := by
      rw [← hfspe]; exact hubq fsp hfsp
    have h2 : mq.getD j 0 ≤ mp.getD j 0 := by
      rw [← hfsqe]; exact hubp fsq hfsq
    exact le_antisymm h1 h2
  refine ⟨?_, Hp.2⟩
  apply List.ext_getElem?
  intro n
  by_cases hn : n < R * R
  · rw [getElem?_eq_some_getD (Hp.1 ▸ hn), getElem?_eq_some_getD (Hq.1 ▸ hn),
      hentry n hn]
  · rw [List.getElem?_eq_none (by omega : mp.length ≤ n),
      List.getElem?_eq_none (by omega : mq.length ≤ n)]

/-- Partition X of the spec's distributed-consistency example: one face
whose candidate threshold for region pair (0, 1) is 5. -/
def partX : List Face :=
  [{ insideElem := 0, outsideElem := 1, area := 1, trans := 1,
     upMobility := fun _ => 1, pressureDiff := fun _ => 5 }]

/-- Partition Y of the spec's distributed-consistency example: one face
whose candidate threshold for region pair (0, 1) is 3. -/
def partY : List Face :=
  [{ insideElem := 0, outsideElem := 1, area := 1, trans := 1,
     upMobility := fun _ => 1, pressureDiff := fun _ => 3 }]

theorem computeDefaultLocal_partX :
    computeDefaultLocal 1 2 [0, 1] partX = [0, 5, 5, 0] := by
  unfold computeDefaultLocal partX processFace faceCandidate
  norm_num [negligibleTol, List.range_succ, List.set, List.getD]

theorem computeDefaultLocal_partY :
    computeDefaultLocal 1 2 [0, 1] partY = [0, 3, 3, 0] := by
  unfold computeDefaultLocal partY processFace faceCandidate
  norm_num [negligibleTol, List.range_succ, List.set, List.getD]

/-- Witness for C6 at the spec's concrete example: partitions observing
5.0 and 3.0 for pair (0, 1) both report 5.0 after the reduction. -/
theorem claim_C6_distributed_reduction_witness :
    ([(0 : ℚ), 5, 5, 0] = [(0 : ℚ), 5, 5, 0]) ∧
    ∀ j, j < 2 * 2 →
      ((∃ fs ∈ [partX, partY],
          (computeDefaultLocal 1 2 [0, 1] fs).getD j 0 =
            [(0 : ℚ), 5, 5, 0].getD j 0) ∧
       ∀ fs ∈ [partX, partY],
          (computeDefaultLocal 1 2 [0, 1] fs).getD j 0 ≤
            [(0 : ℚ), 5, 5, 0].getD j 0) := by
  have hp : (parallelComputeDefault 1 2 [0, 1] [partX, partY]).get? 0 =
      some [0, 5, 5, 0] := by
    simp only [parallelComputeDefault, List.map_cons, List.map_nil,
      computeDefaultLocal_partX, computeDefaultLocal_partY, List.enum,
      commMax]
    norm_num [List.enumFrom, List.eraseIdx, List.zipWith]
  have hq : (parallelComputeDefault 1 2 [0, 1] [partX, partY]).get? 1 =
      some [0, 5, 5, 0] := by
    simp only [parallelComputeDefault, List.map_cons, List.map_nil,
      computeDefaultLocal_partX, computeDefaultLocal_partY, List.enum,
      commMax]
    norm_num [List.enumFrom, List.eraseIdx, List.zipWith]
  exact claim_C6_distributed_reduction 1 2 [0, 1] [partX, partY] 0 1
    [0, 5, 5, 0] [0, 5, 5, 0] hp hq

/-! ### Claim C4: matrix symmetry -/

/-- Symmetry of a flattened `R × R` matrix. -/
def MatSymm (R : Nat) (M : List ℚ) : Prop :=
  ∀ a b, a < R → b < R → M.getD (a * R + b) 0 = M.getD (b * R + a) 0

theorem set_pair_getD {M : List ℚ} {o1 o2 : Nat} {v : ℚ}
    (h1 : o1 < M.length) (h2 : o2 < M.length) (i : Nat) :
    ((M.set o1 v).set o2 v).getD i 0 =
      if i = o2 ∨ i = o1 then v else M.getD i 0 := by
  by_cases hi2 : i = o2
  · subst hi2
    rw [getD_set_self (by rw [List.length_set]; exact h2), if_pos (Or.inl rfl)]
  · rw [getD_set_ne (fun h => hi2 h.symm)]
    by_cases hi1 : i = o1
    · subst hi1
      rw [getD_set_self h1, if_pos (Or.inr rfl)]
    · rw [getD_set_ne (fun h => hi1 h.symm), if_neg (by tauto)]

/-- One estimator step keeps the default matrix symmetric. -/
theorem processFace_symm (numPhases R : Nat) (region : List Nat)
    (hreg : ∀ e, region.getD e 0 < R) (M : List ℚ) (f : Face)
    (hlen : M.length = R * R) (hsym : MatSymm R M) :
    MatSymm R (processFace numPhases R region M f) := by
  unfold processFace
  dsimp only
  set x := region.getD f.insideElem 0 with hxdef
  set y := region.getD f.outsideElem 0 with hydef
  have hx : x < R := hreg f.insideElem
  have hy : y < R := hreg f.outsideElem
  split
  · exact hsym
  · split
    · exact hsym
    · rename_i hxy _
      have ho12 : x * R + y ≠ y * R + x := fun h => hxy (pair_offset_inj hy hx h).1
      have hlt1 : x * R + y < M.length := by rw [hlen]; exact offset_lt hx hy
      have hlt2 : y * R + x < M.length := by rw [hlen]; exact offset_lt hy hx
      have hval : (M.set (x * R + y) (max (M.getD (x * R + y) 0)
          (faceCandidate numPhases f))).getD (y * R + x) 0 =
          M.getD (y * R + x) 0 := getD_set_ne ho12
      rw [hval]
      intro a b ha hb
      have hsame : M.getD (y * R + x) 0 = M.getD (x * R + y) 0 := hsym y x hy hx
      rw [hsame]
      set v := max (M.getD (x * R + y) 0) (faceCandidate numPhases f) with hvdef
      rw [set_pair_getD hlt1 hlt2, set_pair_getD hlt1 hlt2]
      have hiff : (a * R + b = y * R + x ∨ a * R + b = x * R + y) ↔
          (b * R + a = y * R + x ∨ b * R + a = x * R + y) := by
        constructor
        · rintro (h | h)
          · obtain ⟨e1, e2⟩ := pair_offset_inj hb hx h
            exact Or.inr (by rw [e1, e2])
          · obtain ⟨e1, e2⟩ := pair_offset_inj hb hy h
            exact Or.inl (by rw [e1, e2])
        · rintro (h | h)
          · obtain ⟨e1, e2⟩ := pair_offset_inj ha hx h
            exact Or.inr (by rw [e1, e2])
          · obtain ⟨e1, e2⟩ := pair_offset_inj ha hy h
            exact Or.inl (by rw [e1, e2])
      by_cases hc : a * R + b = y * R + x ∨ a * R + b = x * R + y
      · rw [if_pos hc, if_pos (hiff.mp hc)]
      · rw [if_neg hc, if_neg (fun h => hc (hiff.mpr h))]
        exact hsym a b ha hb

/-- One override step keeps the final matrix symmetric: it writes the same
value into both entries of the visited pair. -/
theorem applyStep_symm (R : Nat) (region : List Nat) (cfg : ThpresConfig)
    (dflt : List ℚ) (hreg : ∀ e, region.getD e 0 < R) (M : List ℚ)
    (is : Intersection) (hlen : M.length = R * R) (hsym : MatSymm R M) :
    MatSymm R (applyStep R region cfg dflt M is) := by
  unfold applyStep
  split
  · exact hsym
  · dsimp only
    set x := region.getD is.insideElem 0 with hxdef
    set y := region.getD is.outsideElem 0 with hydef
    have hx : x < R := hreg is.insideElem
    have hy : y < R := hreg is.outsideElem
    split
    · intro a b ha hb
      have hlt1 : x * R + y < M.length := by rw [hlen]; exact offset_lt hx hy
      have hlt2 : y * R + x < M.length := by rw [hlen]; exact offset_lt hy hx
      rw [set_pair_getD hlt1 hlt2, set_pair_getD hlt1 hlt2]
      have hiff : (a * R + b = y * R + x ∨ a * R + b = x * R + y) ↔
          (b * R + a = y * R + x ∨ b * R + a = x * R + y) := by
        constructor
        · rintro (h | h)
          · obtain ⟨e1, e2⟩ := pair_offset_inj hb hx h
            exact Or.inr (by rw [e1, e2])
          · obtain ⟨e1, e2⟩ := pair_offset_inj hb hy h
            exact Or.inl (by rw [e1, e2])
        · rintro (h | h)
          · obtain ⟨e1, e2⟩ := pair_offset_inj ha hx h
            exact Or.inr (by rw [e1, e2])
          · obtain ⟨e1, e2⟩ := pair_offset_inj ha hy h
            exact Or.inl (by rw [e1, e2])
      by_cases hc : a * R + b = y * R + x ∨ a * R + b = x * R + y
      · rw [if_pos hc, if_pos (hiff.mp hc)]
      · rw [if_neg hc, if_neg (fun h => hc (hiff.mpr h))]
        exact hsym a b ha hb
    · exact hsym

theorem applyExplicitScan_length (R : Nat) (region : List Nat)
    (cfg : ThpresConfig) (dflt : List ℚ) :
    ∀ (isects : List Intersection) (M : List ℚ),
      (applyExplicitScan R region cfg dflt isects M).length = M.length := by
  intro isects
  induction isects with
  | nil => intro M; rfl
  | cons x xs ih =>
    intro M
    calc (applyExplicitScan R region cfg dflt (x :: xs) M).length
        = (applyStep R region cfg dflt M x).length := ih _
      _ = M.length := applyStep_length R region cfg dflt M x

/-- The override scan keeps the final matrix symmetric. -/
theorem applyExplicitScan_symm (R : Nat) (region : List Nat)
    (cfg : ThpresConfig) (dflt : List ℚ)
    (hreg : ∀ e, region.getD e 0 < R) :
    ∀ (isects : List Intersection) (M : List ℚ), M.length = R * R →
      MatSymm R M → MatSymm R (applyExplicitScan R region cfg dflt isects M) := by
  intro isects
  induction isects with
  | nil => intro M _ hsym; exact hsym
  | cons x xs ih =>
    intro M hlen hsym
    exact ih _ (by rw [applyStep_length]; exact hlen)
      (applyStep_symm R region cfg dflt hreg M x hlen hsym)

theorem replicate_symm (R : Nat) : MatSymm R (List.replicate (R * R) 0) := by
  intro a b _ _
  rw [replicate_getD_zero, replicate_getD_zero]

/-- The local face scan produces a symmetric matrix. -/
theorem computeDefaultLocal_symm (numPhases R : Nat) (region : List Nat)
    (hreg : ∀ e, region.getD e 0 < R) (faces : List Face) :
    MatSymm R (computeDefaultLocal numPhases R region faces) := by
  unfold computeDefaultLocal
  have main : ∀ (fs : List Face) (M : List ℚ), M.length = R * R →
      MatSymm R M →
      MatSymm R (fs.foldl (processFace numPhases R region) M) := by
    intro fs
    induction fs with
    | nil => intro M _ hsym; exact hsym
    | cons x xs ih =>
      intro M hlen hsym
      exact ih _ (by rw [processFace_length]; exact hlen)
        (processFace_symm numPhases R region hreg M x hlen hsym)
  exact main faces _ (List.length_replicate _ _) (replicate_symm R)

/-- The collective maximum reduction keeps the matrix symmetric when every
participant's matrix is. -/
theorem commMax_symm {R : Nat} :
    ∀ (peers : List (List ℚ)) (l : List ℚ), l.length = R * R →
      MatSymm R l →
      (∀ m ∈ peers, m.length = R * R ∧ MatSymm R m) →
      MatSymm R (commMax l peers) := by
  intro peers
  induction peers with
  | nil => intro l _ hsym _; exact hsym
  | cons m ms ih =>
    intro l hl hsym hall
    obtain ⟨hmlen, hmsym⟩ := hall m (List.mem_cons_self m ms)
    have hz : (List.zipWith max l m).length = R * R := by
      rw [List.length_zipWith, hl, hmlen, Nat.min_self]
    have hzsym : MatSymm R (List.zipWith max l m) := by
      intro a b ha hb
      rw [zipWith_max_getD hl hmlen (offset_lt ha hb),
        zipWith_max_getD hl hmlen (offset_lt hb ha),
        hsym a b ha hb, hmsym a b ha hb]
    exact ih _ hz hzsym (fun m' hm' => hall m' (List.mem_cons_of_mem m hm'))

theorem commMax_symm_length {R : Nat} (peers : List (List ℚ)) (l : List ℚ)
    (hl : l.length = R * R) (hall : ∀ m ∈ peers, m.length = R * R) :
    (commMax l peers).length = R * R :=
  commMax_length peers l hl hall

/-- Region-based resolution is symmetric in the two cells when the stored
matrix is symmetric. -/
theorem regionThreshold_symm (s : ThpresState)
    (hlen : s.thpres.length = s.numEquilRegions * s.numEquilRegions)
    (hsym : MatSymm s.numEquilRegions s.thpres)
    (hregs : ∀ v ∈ s.elemEquilRegion, v < s.numEquilRegions)
    (a b : Nat) :
    regionThreshold s a b = regionThreshold s b a := by
  unfold regionThreshold
  cases h1 : s.elemEquilRegion.get? a with
  | none =>
    cases h2 : s.elemEquilRegion.get? b with
    | none => rfl
    | some r2 => rfl
  | some r1 =>
    cases h2 : s.elemEquilRegion.get? b with
    | none => rfl
    | some r2 =>
      dsimp only
      by_cases he : r1 = r2
      · subst he
        rfl
      · have hr1 : r1 < s.numEquilRegions := hregs r1 (List.get?_mem h1)
        have hr2 : r2 < s.numEquilRegions := hregs r2 (List.get?_mem h2)
        rw [if_neg he, if_neg (Ne.symm he), List.get?_eq_getElem?,
          List.get?_eq_getElem?,
          getElem?_eq_some_getD (by rw [hlen]; exact offset_lt hr1 hr2),
          getElem?_eq_some_getD (by rw [hlen]; exact offset_lt hr2 hr1),
          hsym r1 r2 hr1 hr2]

/-- The query is symmetric in its two cells whenever the stored matrix is
symmetric of the right size and the region map is in range; the fault
branch is symmetric unconditionally. -/
theorem thresholdPressure_symm (enableExperiments : Bool)
    (cartesianIndex : Nat → Nat) (s : ThpresState)
    (hlen : s.thpres.length = s.numEquilRegions * s.numEquilRegions)
    (hsym : MatSymm s.numEquilRegions s.thpres)
    (hregs : ∀ v ∈ s.elemEquilRegion, v < s.numEquilRegions)
    (a b : Nat) :
    thresholdPressure enableExperiments cartesianIndex s a b =
      thresholdPressure enableExperiments cartesianIndex s b a := by
  unfold thresholdPressure
  by_cases hen : s.enableThresholdPressure = false
  · rw [if_pos hen, if_pos hen]
  · rw [if_neg hen, if_neg hen]
    have hregionsymm := regionThreshold_symm s hlen hsym hregs
    by_cases hexp : enableExperiments = true ∧ s.thpresftValues ≠ []
    · rw [if_pos hexp, if_pos hexp]
      cases h1 : s.cartElemFaultIdx.get? (cartesianIndex a) with
      | none =>
        cases h2 : s.cartElemFaultIdx.get? (cartesianIndex b) with
        | none => rfl
        | some f2 => rfl
      | some f1 =>
        cases h2 : s.cartElemFaultIdx.get? (cartesianIndex b) with
        | none => rfl
        | some f2 =>
          dsimp only
          by_cases hc1 : f1 ≠ -1 ∧ f1 = f2
          · rw [if_pos hc1, if_pos ⟨hc1.2 ▸ hc1.1, hc1.2.symm⟩]
          · rw [if_neg hc1, if_neg (fun h : f2 ≠ -1 ∧ f2 = f1 =>
              hc1 ⟨h.2 ▸ h.1, h.2.symm⟩)]
            by_cases hne : f1 = f2
            · rw [if_neg (fun h : ¬ f1 = f2 => h hne),
                if_neg (fun h : ¬ f2 = f1 => h hne.symm)]
              exact hregionsymm a b
            · rw [if_pos hne, if_pos (Ne.symm hne)]
              cases hv1 : (if 0 ≤ f1 then s.thpresftValues.get? f1.toNat
                  else some 0) with
              | none =>
                cases hv2 : (if 0 ≤ f2 then s.thpresftValues.get? f2.toNat
                    else some 0) with
                | none => rfl
                | some v2 => rfl
              | some v1 =>
                cases hv2 : (if 0 ≤ f2 then s.thpresftValues.get? f2.toNat
                    else some 0) with
                | none => rfl
                | some v2 => exact congrArg some (max_comm v1 v2)
    · rw [if_neg hexp, if_neg hexp]
      exact hregionsymm a b

theorem getD_lt_of_mem_lt {l : List Nat} {R : Nat}
    (h : ∀ v ∈ l, v < R) (hR0 : 0 < R) : ∀ e, l.getD e 0 < R := by
  intro e
  by_cases he : e < l.length
  · rw [List.getD_eq_getElem l 0 he]
    exact h _ (List.getElem_mem he)
  · rw [List.getD_eq_getElem?_getD, List.getElem?_eq_none (by omega)]
    exact hR0

/-- With `EQLNUM` values in `[1, R]`, `R ≤ 255` and an in-range cartesian
map, the internalized region ids are all below `R`. -/
theorem internalizeEqlnum_mem_lt (inp : SimulatorInput)
    (h255 : inp.numEquilRegions ≤ 255)
    (heql : ∀ v ∈ inp.eqlnum, 1 ≤ v ∧ v ≤ (inp.numEquilRegions : Int))
    (hidx : ∀ e, inp.cartesianIndex e < inp.eqlnum.length) :
    ∀ v ∈ internalizeEqlnum inp, v < inp.numEquilRegions := by
  intro v hv
  obtain ⟨e, _, hev⟩ := List.mem_map.mp hv
  have hin : inp.cartesianIndex e < inp.eqlnum.length := hidx e
  have hmem : inp.eqlnum.getD (inp.cartesianIndex e) 0 ∈ inp.eqlnum := by
    rw [List.getD_eq_getElem _ 0 hin]
    exact List.getElem_mem hin
  obtain ⟨hb1, hb2⟩ := heql _ hmem
  omega

/-- C4: after initialization — whether by construction or by a restart run
injecting the matrix persisted by a constructed instance — the query is
symmetric in its two cells. -/
theorem claim_C4_query_symmetry (enableExperiments : Bool)
    (numPhases : Nat) (inp inpR : SimulatorInput) (s0 t0 : ThpresState)
    (cart : Nat → Nat) (s t : ThpresState)
    (hact : inp.thpresCfg.active = true)
    (hnr : inp.thpresCfg.restart = false)
    (hR0 : 0 < inp.numEquilRegions)
    (heql : ∀ v ∈ inp.eqlnum, 1 ≤ v ∧ v ≤ (inp.numEquilRegions : Int))
    (hidx : ∀ e, inp.cartesianIndex e < inp.eqlnum.length)
    (hs : finishInit enableExperiments numPhases inp s0 = Except.ok s)
    (hactR : inpR.thpresCfg.active = true)
    (hresR : inpR.thpresCfg.restart = true)
    (hRR : inpR.numEquilRegions = inp.numEquilRegions)
    (heqlR : ∀ v ∈ inpR.eqlnum, 1 ≤ v ∧ v ≤ (inpR.numEquilRegions : Int))
    (hidxR : ∀ e, inpR.cartesianIndex e < inpR.eqlnum.length)
    (ht : finishInit enableExperiments numPhases inpR t0 = Except.ok t) :
    (∀ a b, thresholdPressure enableExperiments cart s a b =
      thresholdPressure enableExperiments cart s b a) ∧
    (∀ a b,
      thresholdPressure enableExperiments cart
        (setFromRestart t (data s)) a b =
      thresholdPressure enableExperiments cart
        (setFromRestart t (data s)) b a) := by
  by_cases h255 : 255 < inp.numEquilRegions
  · simp [finishInit, hact, h255] at hs
  have h255' : inp.numEquilRegions ≤ 255 := by omega
  simp only [finishInit, hact, Bool.true_eq_false, if_false, h255,
    hnr, if_true, if_neg h255] at hs
  rw [if_neg Bool.false_ne_true] at hs
  injection hs with hs
  have hregmem := internalizeEqlnum_mem_lt inp h255' heql hidx
  have hreggetD := getD_lt_of_mem_lt hregmem hR0
  set R := inp.numEquilRegions with hRdef
  have hthlen : (applyExplicitScan R (internalizeEqlnum inp) inp.thpresCfg
      (computeDefaultThresholdPressures numPhases R
        (internalizeEqlnum inp) inp.faces inp.peerDefaults)
      inp.intersections (List.replicate (R * R) 0)).length = R * R := by
    rw [applyExplicitScan_length, List.length_replicate]
  have hthsym : MatSymm R (applyExplicitScan R (internalizeEqlnum inp)
      inp.thpresCfg
      (computeDefaultThresholdPressures numPhases R
        (internalizeEqlnum inp) inp.faces inp.peerDefaults)
      inp.intersections (List.replicate (R * R) 0)) :=
    applyExplicitScan_symm R (internalizeEqlnum inp) inp.thpresCfg _
      hreggetD inp.intersections (List.replicate (R * R) 0)
      (List.length_replicate _ _) (replicate_symm R)
  constructor
  · intro a b
    refine thresholdPressure_symm enableExperiments cart s ?_ ?_ ?_ a b
    · rw [← hs]; exact hthlen
    · rw [← hs]; exact hthsym
    · rw [← hs]; exact hregmem
  · -- the restart instance
    by_cases h255R : 255 < inpR.numEquilRegions
    · rw [hRR] at h255R; omega
    simp only [finishInit, hactR, Bool.true_eq_false, if_false,
      if_neg h255R] at ht
    rw [if_pos hresR] at ht
    injection ht with ht
    have hregmemR := internalizeEqlnum_mem_lt inpR (by omega) heqlR hidxR
    intro a b
    refine thresholdPressure_symm enableExperiments cart _ ?_ ?_ ?_ a b
    · show (data s).length = _
      rw [← ht]
      show s.thpres.length = inpR.numEquilRegions * inpR.numEquilRegions
      rw [hRR, ← hs]
      exact hthlen
    · show MatSymm _ (data s)
      rw [← ht]
      show MatSymm inpR.numEquilRegions s.thpres
      rw [hRR, ← hs]
      exact hthsym
    · rw [← ht]
      show ∀ v ∈ internalizeEqlnum inpR, v < inpR.numEquilRegions
      exact hregmemR

/-- A two-cell, two-region input with the threshold-pressure feature on
and no barriers, used to instantiate the symmetry claim. -/
def symmDemoInput : SimulatorInput :=
  { numElements := 2
    cartesianIndex := fun e => e % 2
    faces := []
    intersections := []
    numEquilRegions := 2
    eqlnum := [1, 2]
    faults := []
    numCartesianElem := 2
    thpresCfg :=
      { active := true, restart := false,
        hasRegionBarrier := fun _ _ => false,
        hasThresholdPressure := fun _ _ => false,
        getThresholdPressure := fun _ _ => 0 }
    hasTHPRESFT := false
    thpresftRecords := []
    peerDefaults := [] }

/-- The restart twin of `symmDemoInput`. -/
def symmDemoRestartInput : SimulatorInput :=
  { symmDemoInput with
    thpresCfg :=
      { active := true, restart := true,
        hasRegionBarrier := fun _ _ => false,
        hasThresholdPressure := fun _ _ => false,
        getThresholdPressure := fun _ _ => 0 } }

/-- Witness for C4 at a concrete input: the constructed state and the
state rebuilt on restart from its persisted matrix both answer
symmetrically. -/
theorem claim_C4_query_symmetry_witness :
    (∀ a b, thresholdPressure false id
        { enableThresholdPressure := true
          numEquilRegions := 2
          elemEquilRegion := [0, 1]
          thpres := [0, 0, 0, 0]
          thpresDefault := [0, 0, 0, 0]
          thpresftValues := []
          cartElemFaultIdx := [] } a b =
      thresholdPressure false id
        { enableThresholdPressure := true
          numEquilRegions := 2
          elemEquilRegion := [0, 1]
          thpres := [0, 0, 0, 0]
          thpresDefault := [0, 0, 0, 0]
          thpresftValues := []
          cartElemFaultIdx := [] } b a) ∧
    (∀ a b, thresholdPressure false id
        (setFromRestart
          { enableThresholdPressure := true
            numEquilRegions := 2
            elemEquilRegion := [0, 1]
            thpres := []
            thpresDefault := []
            thpresftValues := []
            cartElemFaultIdx := [] }
          (data
            { enableThresholdPressure := true
              numEquilRegions := 2
              elemEquilRegion := [0, 1]
              thpres := [0, 0, 0, 0]
              thpresDefault := [0, 0, 0, 0]
              thpresftValues := []
              cartElemFaultIdx := [] })) a b =
      thresholdPressure false id
        (setFromRestart
          { enableThresholdPressure := true
            numEquilRegions := 2
            elemEquilRegion := [0, 1]
            thpres := []
            thpresDefault := []
            thpresftValues := []
            cartElemFaultIdx := [] }
          (data
            { enableThresholdPressure := true
              numEquilRegions := 2
              elemEquilRegion := [0, 1]
              thpres := [0, 0, 0, 0]
              thpresDefault := [0, 0, 0, 0]
              thpresftValues := []
              cartElemFaultIdx := [] })) b a) :=
  claim_C4_query_symmetry false 1 symmDemoInput symmDemoRestartInput
    initialState initialState id _ _
    rfl rfl (by decide) (by decide)
    (fun e => Nat.mod_lt e (by decide)) rfl
    rfl rfl rfl (by decide)
    (fun e => Nat.mod_lt e (by decide)) rfl

/-! ### Claim C8: the query cannot fail after initialization -/

/-- Well-formedness of the cell-to-fault index: every entry is the no-fault
sentinel or a valid fault index. -/
def FaultIdxWf (nFaults : Nat) (c : List Int) : Prop :=
  ∀ f ∈ c, f = -1 ∨ (0 ≤ f ∧ f.toNat < nFaults)

theorem assignFaultCells_wf (faultIdx : Nat) (fault : Fault)
    (nFaults : Nat) (hidx : faultIdx < nFaults) :
    ∀ c : List Int, FaultIdxWf nFaults c →
      FaultIdxWf nFaults (assignFaultCells faultIdx fault c) ∧
      (assignFaultCells faultIdx fault c).length = c.length := by
  have hcell : ∀ (cells : List Nat) (c : List Int), FaultIdxWf nFaults c →
      FaultIdxWf nFaults
        (cells.foldl (fun c i => c.set i (Int.ofNat faultIdx)) c) ∧
      (cells.foldl (fun c i => c.set i (Int.ofNat faultIdx)) c).length =
        c.length := by
    intro cells
    induction cells with
    | nil => intro c hc; exact ⟨hc, rfl⟩
    | cons i is ih =>
      intro c hc
      have hstep : FaultIdxWf nFaults (c.set i (Int.ofNat faultIdx)) := by
        intro f hf
        rcases List.mem_or_eq_of_mem_set hf with hmem | he
        · exact hc f hmem
        · subst he
          exact Or.inr ⟨Int.ofNat_nonneg faultIdx, by simpa using hidx⟩
      obtain ⟨h1, h2⟩ := ih _ hstep
      exact ⟨h1, h2.trans (List.length_set c i _)⟩
  unfold assignFaultCells
  generalize fault.faces = faces
  induction faces with
  | nil => intro c hc; exact ⟨hc, rfl⟩
  | cons face fs ih =>
    intro c hc
    obtain ⟨h1, h2⟩ := hcell face c hc
    obtain ⟨h3, h4⟩ := ih _ h1
    exact ⟨h3, h4.trans h2⟩

theorem processThpresftRecord_wf (faults : List Fault)
    (r : ThpresftRecord) (n : Nat) :
    ∀ vc : List ℚ × List Int,
      vc.1.length = faults.length → vc.2.length = n →
      FaultIdxWf faults.length vc.2 →
      (processThpresftRecord faults vc r).1.length = faults.length ∧
      (processThpresftRecord faults vc r).2.length = n ∧
      FaultIdxWf faults.length (processThpresftRecord faults vc r).2 := by
  unfold processThpresftRecord
  have main : ∀ (l : List (Nat × Fault)),
      (∀ fi ∈ l, fi.1 < faults.length) →
      ∀ vc : List ℚ × List Int,
      vc.1.length = faults.length → vc.2.length = n →
      FaultIdxWf faults.length vc.2 →
      (l.foldl (fun vc fi =>
        if fi.2.name ≠ r.faultName then vc
        else (vc.1.set fi.1 r.value, assignFaultCells fi.1 fi.2 vc.2))
        vc).1.length = faults.length ∧
      (l.foldl (fun vc fi =>
        if fi.2.name ≠ r.faultName then vc
        else (vc.1.set fi.1 r.value, assignFaultCells fi.1 fi.2 vc.2))
        vc).2.length = n ∧
      FaultIdxWf faults.length
        (l.foldl (fun vc fi =>
          if fi.2.name ≠ r.faultName then vc
          else (vc.1.set fi.1 r.value, assignFaultCells fi.1 fi.2 vc.2))
          vc).2 := by
    intro l
    induction l with
    | nil => intro _ vc h1 h2 h3; exact ⟨h1, h2, h3⟩
    | cons fi fis ih =>
      intro hall vc h1 h2 h3
      rw [List.foldl_cons]
      by_cases hname : fi.2.name ≠ r.faultName
      · rw [if_pos hname]
        exact ih (fun x hx => hall x (List.mem_cons_of_mem fi hx)) vc h1 h2 h3
      · rw [if_neg hname]
        obtain ⟨hw, hl⟩ := assignFaultCells_wf fi.1 fi.2 faults.length
          (hall fi (List.mem_cons_self fi fis)) vc.2 h3
        exact ih (fun x hx => hall x (List.mem_cons_of_mem fi hx)) _
          (by simpa using h1) (hl.trans h2) hw
  exact main faults.enum (fun fi hfi => List.fst_lt_of_mem_enum hfi)

/-- `extractThpresft_` produces arrays of the right sizes whose cell map
points only at the sentinel or at valid fault indices. -/
theorem extractThpresft_wf (faults : List Fault) (n : Nat)
    (records : List ThpresftRecord) :
    (extractThpresft faults n records).1.length = faults.length ∧
    (extractThpresft faults n records).2.length = n ∧
    FaultIdxWf faults.length (extractThpresft faults n records).2 := by
  unfold extractThpresft
  have main : ∀ (rs : List ThpresftRecord) (vc : List ℚ × List Int),
      vc.1.length = faults.length → vc.2.length = n →
      FaultIdxWf faults.length vc.2 →
      (rs.foldl (processThpresftRecord faults) vc).1.length =
        faults.length ∧
      (rs.foldl (processThpresftRecord faults) vc).2.length = n ∧
      FaultIdxWf faults.length
        (rs.foldl (processThpresftRecord faults) vc).2 := by
    intro rs
    induction rs with
    | nil => intro vc h1 h2 h3; exact ⟨h1, h2, h3⟩
    | cons r rs' ih =>
      intro vc h1 h2 h3
      obtain ⟨h1', h2', h3'⟩ := processThpresftRecord_wf faults r n vc h1 h2 h3
      exact ih _ h1' h2' h3'
  exact main records _ (List.length_replicate _ _)
    (List.length_replicate _ _)
    (fun f hf => Or.inl (List.eq_of_mem_replicate hf))

/-- Region-based resolution succeeds for in-range cells. -/
theorem regionThreshold_isSome (s : ThpresState) (a b : Nat)
    (hlen : s.thpres.length = s.numEquilRegions * s.numEquilRegions)
    (hregs : ∀ v ∈ s.elemEquilRegion, v < s.numEquilRegions)
    (ha : a < s.elemEquilRegion.length) (hb : b < s.elemEquilRegion.length) :
    ∃ v, regionThreshold s a b = some v := by
  unfold regionThreshold
  simp only [List.get?_eq_getElem?]
  rw [getElem?_eq_some_getD ha, getElem?_eq_some_getD hb]
  dsimp only
  by_cases he : s.elemEquilRegion.getD a 0 = s.elemEquilRegion.getD b 0
  · exact ⟨0, if_pos he⟩
  · rw [if_neg he]
    have hr1 : s.elemEquilRegion.getD a 0 < s.numEquilRegions := by
      rw [List.getD_eq_getElem _ 0 ha]
      exact hregs _ (List.getElem_mem ha)
    have hr2 : s.elemEquilRegion.getD b 0 < s.numEquilRegions := by
      rw [List.getD_eq_getElem _ 0 hb]
      exact hregs _ (List.getElem_mem hb)
    exact ⟨_, getElem?_eq_some_getD (d := 0)
      (by rw [hlen]; exact offset_lt hr1 hr2)⟩

/-- The query never fails on a well-formed post-initialization state. -/
theorem thresholdPressure_isSome (enableExperiments : Bool)
    (cartesianIndex : Nat → Nat) (s : ThpresState) (a b : Nat)
    (hlen : s.thpres.length = s.numEquilRegions * s.numEquilRegions)
    (hregs : ∀ v ∈ s.elemEquilRegion, v < s.numEquilRegions)
    (ha : a < s.elemEquilRegion.length) (hb : b < s.elemEquilRegion.length)
    (hfault : s.thpresftValues ≠ [] →
      cartesianIndex a < s.cartElemFaultIdx.length ∧
      cartesianIndex b < s.cartElemFaultIdx.length ∧
      FaultIdxWf s.thpresftValues.length s.cartElemFaultIdx) :
    ∃ v, thresholdPressure enableExperiments cartesianIndex s a b =
      some v := by
  unfold thresholdPressure
  by_cases hen : s.enableThresholdPressure = false
  · exact ⟨0, if_pos hen⟩
  · rw [if_neg hen]
    by_cases hexp : enableExperiments = true ∧ s.thpresftValues ≠ []
    · rw [if_pos hexp]
      obtain ⟨hca, hcb, hwf⟩ := hfault hexp.2
      rw [List.get?_eq_getElem?, List.get?_eq_getElem?,
        List.getElem?_eq_getElem hca, List.getElem?_eq_getElem hcb]
      dsimp only
      set f1 := s.cartElemFaultIdx[cartesianIndex a] with hf1def
      set f2 := s.cartElemFaultIdx[cartesianIndex b] with hf2def
      by_cases hc1 : f1 ≠ -1 ∧ f1 = f2
      · exact ⟨0, if_pos hc1⟩
      · rw [if_neg hc1]
        by_cases hne : f1 ≠ f2
        · rw [if_pos hne]
          have hv : ∀ f : Int, f ∈ s.cartElemFaultIdx →
              ∃ w, (if 0 ≤ f then s.thpresftValues.get? f.toNat
                else some 0) = some w := by
            intro f hf
            by_cases hpos : 0 ≤ f
            · rcases hwf f hf with hneg | ⟨_, hlt⟩
              · subst hneg; exact absurd hpos (by decide)
              · rw [if_pos hpos, List.get?_eq_getElem?,
                  List.getElem?_eq_getElem hlt]
                exact ⟨_, rfl⟩
            · exact ⟨0, if_neg hpos⟩
          obtain ⟨w1, hw1⟩ := hv f1 (by rw [hf1def]; exact List.getElem_mem hca)
          obtain ⟨w2, hw2⟩ := hv f2 (by rw [hf2def]; exact List.getElem_mem hcb)
          rw [hw1, hw2]
          exact ⟨max w1 w2, rfl⟩
        · rw [if_neg hne]
          exact regionThreshold_isSome s a b hlen hregs ha hb
    · rw [if_neg hexp]
      exact regionThreshold_isSome s a b hlen hregs ha hb

theorem internalizeEqlnum_length (inp : SimulatorInput) :
    (internalizeEqlnum inp).length = inp.numElements := by
  unfold internalizeEqlnum
  rw [List.length_map, List.length_range]

/-- C8: after initialization completes — construction from the fresh
state, or a restart run followed by injection of a persisted matrix of the
right size — the query succeeds on every pair of valid local cell indices:
no out-of-bounds access or assertion failure is reachable. -/
theorem claim_C8_query_total (enableExperiments : Bool) (numPhases : Nat)
    (inp inpR : SimulatorInput) (s t : ThpresState) (M : List ℚ)
    (a b : Nat)
    (hact : inp.thpresCfg.active = true)
    (hnr : inp.thpresCfg.restart = false)
    (hR0 : 0 < inp.numEquilRegions)
    (heql : ∀ v ∈ inp.eqlnum, 1 ≤ v ∧ v ≤ (inp.numEquilRegions : Int))
    (hidx : ∀ e, inp.cartesianIndex e < inp.eqlnum.length)
    (hcart : ∀ e, inp.cartesianIndex e < inp.numCartesianElem)
    (hs : finishInit enableExperiments numPhases inp initialState =
      Except.ok s)
    (hA : a < inp.numElements) (hB : b < inp.numElements)
    (hactR : inpR.thpresCfg.active = true)
    (hresR : inpR.thpresCfg.restart = true)
    (hRR : inpR.numEquilRegions = inp.numEquilRegions)
    (heqlR : ∀ v ∈ inpR.eqlnum, 1 ≤ v ∧ v ≤ (inpR.numEquilRegions : Int))
    (hidxR : ∀ e, inpR.cartesianIndex e < inpR.eqlnum.length)
    (ht : finishInit enableExperiments numPhases inpR initialState =
      Except.ok t)
    (hM : M.length = inp.numEquilRegions * inp.numEquilRegions)
    (hAR : a < inpR.numElements) (hBR : b < inpR.numElements) :
    (∃ v, thresholdPressure enableExperiments inp.cartesianIndex s a b =
      some v) ∧
    (∃ v, thresholdPressure enableExperiments inpR.cartesianIndex
      (setFromRestart t M) a b = some v) := by
  by_cases h255 : 255 < inp.numEquilRegions
  · simp [finishInit, hact, h255] at hs
  have h255' : inp.numEquilRegions ≤ 255 := by omega
  simp only [finishInit, hact, Bool.true_eq_false, if_false, h255,
    hnr, if_neg h255] at hs
  rw [if_neg Bool.false_ne_true] at hs
  injection hs with hs
  have hregmem := internalizeEqlnum_mem_lt inp h255' heql hidx
  constructor
  · refine thresholdPressure_isSome enableExperiments inp.cartesianIndex
      s a b ?_ ?_ ?_ ?_ ?_
    · rw [← hs]
      show (applyExplicitScan _ _ _ _ _ _).length = _
      rw [applyExplicitScan_length, List.length_replicate]
    · rw [← hs]; exact hregmem
    · rw [← hs]
      show a < (internalizeEqlnum inp).length
      rw [internalizeEqlnum_length]; exact hA
    · rw [← hs]
      show b < (internalizeEqlnum inp).length
      rw [internalizeEqlnum_length]; exact hB
    · rw [← hs]
      by_cases hkey : enableExperiments = true ∧ inp.hasTHPRESFT = true
      · intro _
        obtain ⟨hl1, hl2, hwf⟩ := extractThpresft_wf inp.faults
          inp.numCartesianElem inp.thpresftRecords
        show inp.cartesianIndex a <
            ((if enableExperiments = true ∧ inp.hasTHPRESFT = true then
              extractThpresft inp.faults inp.numCartesianElem
                inp.thpresftRecords
            else (initialState.thpresftValues,
              initialState.cartElemFaultIdx)).2).length ∧ _
        rw [if_pos hkey]
        refine ⟨by rw [hl2]; exact hcart a, by rw [hl2]; exact hcart b, ?_⟩
        rw [hl1]
        exact hwf
      · intro habs
        exfalso
        apply habs
        show (if enableExperiments = true ∧ inp.hasTHPRESFT = true then
            extractThpresft inp.faults inp.numCartesianElem
              inp.thpresftRecords
          else (initialState.thpresftValues,
            initialState.cartElemFaultIdx)).1 = []
        rw [if_neg hkey]
        rfl
  · by_cases h255R : 255 < inpR.numEquilRegions
    · rw [hRR] at h255R; omega
    simp only [finishInit, hactR, Bool.true_eq_false, if_false,
      if_neg h255R] at ht
    rw [if_pos hresR] at ht
    injection ht with ht
    have hregmemR := internalizeEqlnum_mem_lt inpR (by omega) heqlR hidxR
    refine thresholdPressure_isSome enableExperiments inpR.cartesianIndex
      _ a b ?_ ?_ ?_ ?_ ?_
    · show M.length = _
      rw [← ht]
      show M.length = inpR.numEquilRegions * inpR.numEquilRegions
      rw [hRR]
      exact hM
    · rw [← ht]
      show ∀ v ∈ internalizeEqlnum inpR, v < inpR.numEquilRegions
      exact hregmemR
    · rw [← ht]
      show a < (internalizeEqlnum inpR).length
      rw [internalizeEqlnum_length]; exact hAR
    · rw [← ht]
      show b < (internalizeEqlnum inpR).length
      rw [internalizeEqlnum_length]; exact hBR
    · rw [← ht]
      intro habs
      exact absurd rfl habs

/-- Witness for C8 at a concrete input: both the constructed and the
restart-injected instances answer the query for cells 0 and 1. -/
theorem claim_C8_query_total_witness :
    (∃ v, thresholdPressure false symmDemoInput.cartesianIndex
      { enableThresholdPressure := true
        numEquilRegions := 2
        elemEquilRegion := [0, 1]
        thpres := [0, 0, 0, 0]
        thpresDefault := [0, 0, 0, 0]
        thpresftValues := []
        cartElemFaultIdx := [] } 0 1 = some v) ∧
    (∃ v, thresholdPressure false symmDemoRestartInput.cartesianIndex
      (setFromRestart
        { enableThresholdPressure := true
          numEquilRegions := 2
          elemEquilRegion := [0, 1]
          thpres := []
          thpresDefault := []
          thpresftValues := []
          cartElemFaultIdx := [] }
        [0, 0, 9, 0]) 0 1 = some v) :=
  claim_C8_query_total false 1 symmDemoInput symmDemoRestartInput _ _
    [0, 0, 9, 0] 0 1
    rfl rfl (by decide) (by decide)
    (fun e => Nat.mod_lt e (by decide))
    (fun e => Nat.mod_lt e (by decide))
    rfl (by decide) (by decide)
    rfl rfl rfl (by decide)
    (fun e => Nat.mod_lt e (by decide))
    rfl rfl (by decide) (by decide)

end EclThresholdPressure
